import Mathlib

/-!
Verification development for the namesphere identity manager.

The definitions below are a shallow embedding of the server code:

* `Ident`, `InsertIdent`, `UpdateIdent` embed the `identities` table row and
  the zod-derived insert/update payloads from `src/shared/schema.ts`;
* `createIdentity`, `updateIdentity`, `deleteIdentity`, `setPrimaryIdentity`,
  `getIdentity`, `getIdentities`, `getPrimaryIdentity` embed the
  `DatabaseStorage` methods of `src/server/replitAuth.ts` (the database is a
  list of rows; each drizzle transaction becomes one pure state transition);
* the `...Route` functions embed the express handlers of
  `src/server/routes.ts`;
* `negotiateContent`, `escapeCsv`, `escapeXml`, `safeCdata`, `formatAsXml`
  embed the content-negotiation and serialization layer.

Timestamps are modelled as a logical clock (`Nat`) supplied by the caller,
standing for `new Date()`.  Row ids generated by the database default
`gen_random_uuid()` are modelled by `freshId`, a deterministic generator
producing an id not present in the database, reflecting the primary-key
uniqueness the store guarantees.
-/

/--
One row of the `identities` table (`src/shared/schema.ts`, lines 51-68).
`otherNames` and `socialLinks` are embedded with their column defaults
(`[]` / `{}`) rather than as nullable, since every write path either supplies
a value or relies on the default; `pronouns`, `title` and `avatarUrl` are
nullable text columns, hence `Option String`.  `isPrimary` is embedded as
`Bool`: the column default is `false` and every write path supplies a boolean
or relies on that default.
-/
structure Ident where
  id : String
  userId : String
  personalName : String
  context : String
  otherNames : List String
  pronouns : Option String
  title : Option String
  avatarUrl : Option String
  socialLinks : List (String × String)
  isPrimary : Bool
  createdAt : Nat
  updatedAt : Nat
deriving Repr, DecidableEq

/--
The payload accepted by `insertIdentitySchema` after validation
(`src/shared/schema.ts`, lines 141-148): the row minus `id`, `userId`,
`createdAt`, `updatedAt`.  Note that `context` is an unrestricted string,
because the schema is `createInsertSchema` over a plain `text` column with no
enum refinement.  The `z.string().url()` refinement on `socialLinks` values
is not modelled (no claim below depends on it).
-/
structure InsertIdent where
  personalName : String
  context : String
  otherNames : List String
  pronouns : Option String
  title : Option String
  avatarUrl : Option String
  socialLinks : List (String × String)
  isPrimary : Bool
deriving Repr, DecidableEq

/--
The payload accepted by `updateIdentitySchema`
(`insertIdentitySchema.partial()`): every field optional; absent fields leave
the row unchanged.  Explicit-null updates of nullable columns are not
modelled (no claim depends on them).
-/
structure UpdateIdent where
  personalName : Option String
  context : Option String
  otherNames : Option (List String)
  pronouns : Option String
  title : Option String
  avatarUrl : Option String
  socialLinks : Option (List (String × String))
  isPrimary : Option Bool
deriving Repr, DecidableEq

/-- The drizzle where-clause `and(eq(identities.id, id), eq(identities.userId, userId))`. -/
def matchKey (id uid : String) (i : Ident) : Bool :=
  i.id == id && i.userId == uid

/-- Row predicate for the current primary of an owner. -/
def ownerPrimary (uid : String) (i : Ident) : Bool :=
  i.userId == uid && i.isPrimary

/--
The `update identities set is_primary = false, updated_at = now where
user_id = uid and is_primary` statement used inside the create / update /
set-primary transactions.
-/
def unsetPrimary (uid : String) (now : Nat) (db : List Ident) : List Ident :=
  db.map (fun i => if ownerPrimary uid i then { i with isPrimary := false, updatedAt := now } else i)

/-- A fresh row id: one character longer than every id already present. -/
def freshId (db : List Ident) : String :=
  String.mk (List.replicate ((db.map (fun i => i.id.length)).foldr max 0 + 1) 'x')

/-- Builds the row inserted by `createIdentity` (`values({ ...identity, userId })`). -/
def mkIdent (uid newId : String) (now : Nat) (ins : InsertIdent) : Ident :=
  { id := newId, userId := uid, personalName := ins.personalName, context := ins.context,
    otherNames := ins.otherNames, pronouns := ins.pronouns, title := ins.title,
    avatarUrl := ins.avatarUrl, socialLinks := ins.socialLinks, isPrimary := ins.isPrimary,
    createdAt := now, updatedAt := now }

/--
`DatabaseStorage.createIdentity` (`src/server/replitAuth.ts`, lines 520-546):
inside one transaction, if the draft is primary first unset the owner's
current primary, then insert the new row.  Returns the new row and the new
database state.  The audit-log insert does not touch the identities table and
is not part of the returned state.
-/
def createIdentity (uid : String) (ins : InsertIdent) (now : Nat) (db : List Ident) :
    Ident × List Ident :=
  let db1 := if ins.isPrimary then unsetPrimary uid now db else db
  let newI := mkIdent uid (freshId db) now ins
  (newI, db1 ++ [newI])

/-- Applies an update payload to a row (`set({ ...updates, updatedAt: new Date() })`). -/
def applyUpdates (u : UpdateIdent) (now : Nat) (i : Ident) : Ident :=
  { i with
    personalName := u.personalName.getD i.personalName,
    context := u.context.getD i.context,
    otherNames := u.otherNames.getD i.otherNames,
    pronouns := match u.pronouns with | some p => some p | none => i.pronouns,
    title := match u.title with | some t => some t | none => i.title,
    avatarUrl := match u.avatarUrl with | some a => some a | none => i.avatarUrl,
    socialLinks := u.socialLinks.getD i.socialLinks,
    isPrimary := u.isPrimary.getD i.isPrimary,
    updatedAt := now }

/--
`DatabaseStorage.updateIdentity` (`src/server/replitAuth.ts`, lines 548-582):
select the row by (id, owner); if absent return `none`; if the patch sets
`isPrimary` (truthy) unset the owner's current primary; then apply the patch
to the (id, owner) row and return it.
-/
def updateIdentity (id uid : String) (u : UpdateIdent) (now : Nat) (db : List Ident) :
    Option Ident × List Ident :=
  match db.find? (matchKey id uid) with
  | none => (none, db)
  | some _ =>
    let db1 := if u.isPrimary.getD false then unsetPrimary uid now db else db
    let db2 := db1.map (fun i => if matchKey id uid i then applyUpdates u now i else i)
    (db2.find? (matchKey id uid), db2)

/--
`DatabaseStorage.deleteIdentity` (`src/server/replitAuth.ts`, lines 584-608):
select by (id, owner); if absent return `false`; otherwise delete the row and
return `true`.
-/
def deleteIdentity (id uid : String) (db : List Ident) : Bool × List Ident :=
  match db.find? (matchKey id uid) with
  | none => (false, db)
  | some _ => (true, db.filter (fun i => !(matchKey id uid i)))

/--
`DatabaseStorage.setPrimaryIdentity` (`src/server/replitAuth.ts`, lines
610-643): select by (id, owner); if absent return `none`; otherwise unset the
owner's current primary, set the target primary, and return the updated row.
-/
def setPrimaryIdentity (id uid : String) (now : Nat) (db : List Ident) :
    Option Ident × List Ident :=
  match db.find? (matchKey id uid) with
  | none => (none, db)
  | some _ =>
    let db1 := unsetPrimary uid now db
    let db2 := db1.map (fun i =>
      if matchKey id uid i then { i with isPrimary := true, updatedAt := now } else i)
    (db2.find? (matchKey id uid), db2)

/-- `DatabaseStorage.getIdentity` (lines 511-518): select by (id, owner). -/
def getIdentity (id uid : String) (db : List Ident) : Option Ident :=
  db.find? (matchKey id uid)

/-- `DatabaseStorage.getPrimaryIdentity` (lines 645-652). -/
def getPrimaryIdentity (uid : String) (db : List Ident) : Option Ident :=
  db.find? (ownerPrimary uid)

/-- The `orderBy(desc(identities.isPrimary), desc(identities.createdAt))` comparison. -/
def identityBefore (a b : Ident) : Bool :=
  if a.isPrimary != b.isPrimary then a.isPrimary else Nat.ble b.createdAt a.createdAt

/-- Insertion step of the order-by embedding. -/
def insertSorted (a : Ident) : List Ident → List Ident
  | [] => [a]
  | b :: rest => if identityBefore a b then a :: b :: rest else b :: insertSorted a rest

/-- Sorting embedding of the SQL `order by` clause. -/
def sortIdentities : List Ident → List Ident
  | [] => []
  | a :: rest => insertSorted a (sortIdentities rest)

/--
`DatabaseStorage.getIdentities` (lines 496-509): the caller's rows, optionally
restricted to one context, ordered primary-first then newest-created-first.
-/
def getIdentities (uid : String) (ctx : Option String) (db : List Ident) : List Ident :=
  sortIdentities (db.filter (fun i =>
    i.userId == uid && (match ctx with | none => true | some c => i.context == c)))

/-- Response envelope of a route handler: a success value or an error body. -/
inductive ApiResp (α : Type) where
  | ok (status : Nat) (val : α)
  | err (status : Nat) (message : String)
deriving Repr, DecidableEq

/-- Error body of the not-found responses (`"Identity not found"`). -/
def identityNotFoundMsg : String := "Identity not found"

/-- Error body of the last-identity policy response. -/
def cannotDeleteMsg : String := "Cannot delete your only identity"

/-- Error body of schema-validation failures (`"Validation error"`). -/
def validationErrMsg : String := "Validation error"

/-- `GET /api/identities/:id` handler (`src/server/routes.ts`, lines 77-96). -/
def getIdentityRoute (uid id : String) (db : List Ident) : ApiResp Ident :=
  match getIdentity id uid db with
  | some i => .ok 200 i
  | none => .err 404 identityNotFoundMsg

/--
`PUT /api/identities/:id` handler (`src/server/routes.ts`, lines 134-165),
after body validation (the body is the already-parsed patch).
-/
def updateIdentityRoute (uid id : String) (u : UpdateIdent) (now : Nat) (db : List Ident) :
    ApiResp Ident × List Ident :=
  match updateIdentity id uid u now db with
  | (some i, db2) => (.ok 200 i, db2)
  | (none, db2) => (.err 404 identityNotFoundMsg, db2)

/--
`DELETE /api/identities/:id` handler (`src/server/routes.ts`, lines 167-194):
first the last-identity policy check on the owner's full identity count, then
the delete.
-/
def deleteIdentityRoute (uid id : String) (db : List Ident) : ApiResp Unit × List Ident :=
  if (getIdentities uid none db).length == 1 then
    (.err 400 cannotDeleteMsg, db)
  else
    match deleteIdentity id uid db with
    | (true, db2) => (.ok 204 (), db2)
    | (false, db2) => (.err 404 identityNotFoundMsg, db2)

/-- `POST /api/identities/:id/set-primary` handler (`src/server/routes.ts`, lines 196-215). -/
def setPrimaryIdentityRoute (uid id : String) (now : Nat) (db : List Ident) :
    ApiResp Ident × List Ident :=
  match setPrimaryIdentity id uid now db with
  | (some i, db2) => (.ok 200 i, db2)
  | (none, db2) => (.err 404 identityNotFoundMsg, db2)

/-- The owner's rows currently flagged primary. -/
def primariesOf (uid : String) (db : List Ident) : List Ident :=
  db.filter (ownerPrimary uid)

/-- Primary-key uniqueness of row ids. -/
def IdsNodup (db : List Ident) : Prop :=
  (db.map (fun i => i.id)).Nodup

/-- At most one primary identity per owner. -/
def PrimaryInv (db : List Ident) : Prop :=
  ∀ uid, (primariesOf uid db).length ≤ 1

/-- The store invariant: unique ids and at most one primary per owner. -/
def StoreInv (db : List Ident) : Prop :=
  IdsNodup db ∧ PrimaryInv db

/-- One mutating storage operation by an owner (delete is governed by C2/C9). -/
inductive StoreOp where
  | create (ins : InsertIdent) (now : Nat)
  | update (id : String) (u : UpdateIdent) (now : Nat)
  | setPrim (id : String) (now : Nat)
deriving Repr

/-- Applies one storage operation for owner `uid`. -/
def applyOp (uid : String) (op : StoreOp) (db : List Ident) : List Ident :=
  match op with
  | .create ins now => (createIdentity uid ins now db).2
  | .update id u now => (updateIdentity id uid u now db).2
  | .setPrim id now => (setPrimaryIdentity id uid now db).2

/-- Runs a sequence of storage operations for owner `uid`. -/
def runOps (uid : String) (ops : List StoreOp) (db : List Ident) : List Ident :=
  ops.foldl (fun d op => applyOp uid op d) db

/-- Sample row: owner `u`, id `a`, primary. -/
def identA : Ident :=
  { id := "a", userId := "u", personalName := "A", context := "work", otherNames := [],
    pronouns := none, title := none, avatarUrl := none, socialLinks := [],
    isPrimary := true, createdAt := 0, updatedAt := 0 }

/-- Sample row: owner `u`, id `a2`, not primary. -/
def identA2 : Ident :=
  { identA with id := "a2", isPrimary := false, createdAt := 1 }

/-- Sample row: owner `v`, id `b`. -/
def identB : Ident :=
  { id := "b", userId := "v", personalName := "B", context := "social", otherNames := [],
    pronouns := none, title := none, avatarUrl := none, socialLinks := [],
    isPrimary := false, createdAt := 0, updatedAt := 0 }

/-- Database where owner `u` owns exactly one identity. -/
def dbOne : List Ident := [identA]

/-- Database where owner `u` owns two identities. -/
def dbTwo : List Ident := [identA, identA2]

/-- Database where owner `u` owns one identity and `v` owns another. -/
def dbOneCross : List Ident := [identA, identB]

/-- Database containing only an identity of owner `v`. -/
def dbOther : List Ident := [identB]

/-- Sample insert draft with `isPrimary = true`. -/
def insA : InsertIdent :=
  { personalName := "A", context := "work", otherNames := [], pronouns := none,
    title := none, avatarUrl := none, socialLinks := [], isPrimary := true }

/-- The empty update patch. -/
def emptyUpdate : UpdateIdent :=
  { personalName := none, context := none, otherNames := none, pronouns := none,
    title := none, avatarUrl := none, socialLinks := none, isPrimary := none }

/--
The request body of `POST /api/identities` as seen by
`insertIdentitySchema.safeParse` (fields may be absent).  `socialLinks`
values are kept as plain strings; the `z.string().url()` refinement is not
modelled (no claim depends on it).
-/
structure RawInsertBody where
  personalName : Option String
  context : Option String
  otherNames : Option (List String)
  pronouns : Option String
  title : Option String
  avatarUrl : Option String
  socialLinks : Option (List (String × String))
  isPrimary : Option Bool
deriving Repr, DecidableEq

/--
`insertIdentitySchema.safeParse` (`src/shared/schema.ts`, lines 141-148):
`createInsertSchema` over the `identities` table requires `personalName` and
`context` as plain strings — the `context` column is unrestricted `text`, so
NO enumeration check is performed — and leaves the remaining columns
optional (`socialLinks` defaults to `{}` via the zod override; absent
`otherNames` and `isPrimary` fall back to the column defaults `[]` / `false`).
-/
def insertIdentityParse (b : RawInsertBody) : Option InsertIdent :=
  match b.personalName, b.context with
  | some pn, some c =>
    some { personalName := pn, context := c, otherNames := b.otherNames.getD [],
           pronouns := b.pronouns, title := b.title, avatarUrl := b.avatarUrl,
           socialLinks := b.socialLinks.getD [], isPrimary := b.isPrimary.getD false }
  | _, _ => none

/--
`updateIdentitySchema.safeParse` (`insertIdentitySchema.partial()`): every
field optional and type-checked only — in particular a present `context` is
accepted as any string, with no enumeration re-validation.
-/
def updateIdentityParse (u : UpdateIdent) : Option UpdateIdent :=
  some u

/--
`POST /api/identities` handler (`src/server/routes.ts`, lines 98-132):
validate the body, then (a no-op in the source) re-affirm `isPrimary` when an
existing primary is found, then create, answering 201 with the new row.
-/
def createIdentityRoute (uid : String) (b : RawInsertBody) (now : Nat) (db : List Ident) :
    ApiResp Ident × List Ident :=
  match insertIdentityParse b with
  | none => (.err 400 validationErrMsg, db)
  | some ins =>
    let ins2 := if ins.isPrimary && (getPrimaryIdentity uid db).isSome
      then { ins with isPrimary := true } else ins
    let r := createIdentity uid ins2 now db
    (.ok 201 r.1, r.2)

/-- Status code of a response envelope. -/
def statusOf {α : Type} : ApiResp α → Nat
  | .ok s _ => s
  | .err s _ => s

/-- A create body whose `context` is outside the {legal, work, social, gaming} enumeration. -/
def rawBadInsert : RawInsertBody :=
  { personalName := some ("John Doe"), context := some ("invalid-context"), otherNames := none,
    pronouns := none, title := none, avatarUrl := none, socialLinks := none,
    isPrimary := none }

/-- An update patch whose `context` is outside the enumeration. -/
def badContextUpdate : UpdateIdent :=
  { emptyUpdate with context := some ("invalid-context") }

/-- Bool test whether `pat` is a leading subsequence of `s` (JS `startsWith`). -/
def hasLead : List Char → List Char → Bool
  | [], _ => true
  | _ :: _, [] => false
  | a :: as, b :: bs => a == b && hasLead as bs

/--
Leftmost occurrence search: `findSeq sep s = some (a, b)` splits `s` as
`a ++ sep ++ b` at the first occurrence of `sep`; `none` when `sep` does not
occur.  This is the search primitive behind the JS `String.includes` and
`String.split` used by the serialization layer.
-/
def findSeq (sep : List Char) : List Char → Option (List Char × List Char)
  | [] => if hasLead sep [] then some ([], []) else none
  | c :: rest =>
    if hasLead sep (c :: rest) then some ([], (c :: rest).drop sep.length)
    else
      match findSeq sep rest with
      | some (a, b) => some (c :: a, b)
      | none => none

/-- JS `s.includes(pat)` on strings. -/
def includesStr (s pat : String) : Bool :=
  (findSeq pat.data s.data).isSome

/-- Modelled from the spec: the fixed context enumeration {legal, work, social, gaming}. -/
def contextEnum : List String := ["legal", "work", "social", "gaming"]

/--
Modelled from the spec: an identity row as the Public Search component sees
it.  The `isDiscoverable` column appears in the repository's tests
(`test-utils.ts`, `public-search.test.ts`) and README but is missing from the
schema under src/, so it is modelled here from spec section 3.
-/
structure DiscoverableIdent where
  id : String
  userId : String
  personalName : String
  context : String
  otherNames : List String
  pronouns : Option String
  title : Option String
  avatarUrl : Option String
  socialLinks : List (String × String)
  isPrimary : Bool
  isDiscoverable : Bool
  createdAt : Nat
  updatedAt : Nat
deriving Repr, DecidableEq

/--
Modelled from the spec: the whitelisted public projection (spec section 4.2)
— no `ownerId`, no `isDiscoverable`, no `createdAt`, no `updatedAt`.
-/
structure PublicIdentity where
  id : String
  personalName : String
  context : String
  otherNames : List String
  pronouns : Option String
  title : Option String
  avatarUrl : Option String
  socialLinks : List (String × String)
  isPrimary : Bool
deriving Repr, DecidableEq

/-- Modelled from the spec: field-whitelist projection to the public shape. -/
def toPublicIdentity (i : DiscoverableIdent) : PublicIdentity :=
  { id := i.id, personalName := i.personalName, context := i.context,
    otherNames := i.otherNames, pronouns := i.pronouns, title := i.title,
    avatarUrl := i.avatarUrl, socialLinks := i.socialLinks, isPrimary := i.isPrimary }

/-- Case-insensitive substring test used by the free-text search filter. -/
def lowerHas (field q : String) : Bool :=
  includesStr field.toLower q.toLower

/--
Modelled from the spec: an identity matches the free-text query iff the query
appears case-insensitively in `personalName`, any entry of `otherNames`, or
`title` (spec section 4.2).
-/
def matchesSearchText (q : String) (i : DiscoverableIdent) : Bool :=
  lowerHas i.personalName q
    || i.otherNames.any (fun n => lowerHas n q)
    || (match i.title with | some t => lowerHas t q | none => false)

/-- Modelled from the spec: eligibility filter of the public search. -/
def searchEligible (c : String) (q : Option String) (i : DiscoverableIdent) : Bool :=
  i.isDiscoverable && i.context == c
    && (match q with | none => true | some qs => matchesSearchText qs i)

/-- Result envelope of the public search. -/
structure SearchResult where
  identities : List PublicIdentity
  hasMore : Bool
deriving Repr, DecidableEq

/-- Modelled from the spec: default page size when `limit` is absent. -/
def defaultSearchLimit : Nat := 20

/--
Modelled from the spec: `search(query)` of the Public Search component (spec
section 4.2); the implementing route (`GET /api/public/identities/search`) is
exercised by `public-search.test.ts` but absent from src/.  `context` is
required and must be in the enumeration; `limit` is bounded 1-50; only
discoverable identities are eligible; `hasMore` is true iff more matches
exist beyond the limit.  `none` stands for the validation error.
-/
def searchPublicIdentities (ctx : Option String) (q : Option String) (lim : Option Nat)
    (db : List DiscoverableIdent) : Option SearchResult :=
  match ctx with
  | none => none
  | some c =>
    if !(contextEnum.contains c) then none
    else
      let n := lim.getD defaultSearchLimit
      if n < 1 || 50 < n then none
      else
        let matching := db.filter (searchEligible c q)
        some { identities := (matching.take n).map toPublicIdentity,
               hasMore := decide (n < matching.length) }

/--
Modelled from the spec: `getPublicIdentity(id)` (spec section 4.2) — the
whitelisted projection, not-found (`none`) when the identity does not exist
or is not discoverable, the two cases indistinguishable.
-/
def getPublicIdentity (id : String) (db : List DiscoverableIdent) : Option PublicIdentity :=
  (db.find? (fun i => i.id == id && i.isDiscoverable)).map toPublicIdentity

/-- Sample discoverable identity in context `work`. -/
def discWork : DiscoverableIdent :=
  { id := "d1", userId := "u", personalName := "John Engineer", context := "work",
    otherNames := [], pronouns := none, title := some ("Software Engineer"),
    avatarUrl := none, socialLinks := [], isPrimary := false, isDiscoverable := true,
    createdAt := 0, updatedAt := 0 }

/-- Sample non-discoverable identity in context `work`. -/
def discHidden : DiscoverableIdent :=
  { discWork with id := "d2", personalName := "Private Identity", isDiscoverable := false }

/-- Sample public-search database. -/
def discDb : List DiscoverableIdent := [discWork, discHidden]

/-- The four negotiable wire formats. -/
inductive WireFormat where
  | json
  | jsonApi
  | csv
  | xml
deriving Repr, DecidableEq

/-- The JSON:API accept token. -/
def vndApiToken : String := "application/vnd.api+json"

/-- The CSV accept token. -/
def csvToken : String := "text/csv"

/-- The XML accept token. -/
def xmlToken : String := "application/xml"

/-- Default accept value when the header is absent (`req.headers.accept || 'application/json'`). -/
def jsonDefaultAccept : String := "application/json"

/--
`negotiateContent` (`src/unnamed/part_001`, lines 22-34): substring tests on
the accept preference string in the fixed priority order json-api, csv, xml,
with json as the fallback; an absent header defaults to `application/json`.
-/
def negotiateContent (accept : Option String) : WireFormat :=
  let acceptHeader := accept.getD jsonDefaultAccept
  if includesStr acceptHeader vndApiToken then .jsonApi
  else if includesStr acceptHeader csvToken then .csv
  else if includesStr acceptHeader xmlToken then .xml
  else .json

/-- The quote character prefixed to neutralize spreadsheet formulas. -/
def aposChar : Char := Char.ofNat 39

/-- The quote character as a one-character string. -/
def aposStr : String := String.mk [aposChar]

/-- JS `value.startsWith('=') || ... ('+') || ... ('-') || ... ('@')`. -/
def startsWithFormulaChar (s : String) : Bool :=
  match s.data with
  | [] => false
  | c :: _ => c == '=' || c == '+' || c == '-' || c == '@'

/-- JS `value.includes(c)` for a single character. -/
def containsCh (s : String) (c : Char) : Bool :=
  s.data.contains c

/-- The quoting trigger: value contains comma, newline, carriage return or double-quote. -/
def needsCsvQuoting (s : String) : Bool :=
  containsCh s ',' || containsCh s '\n' || containsCh s '\r' || containsCh s '"'

/-- JS `value.replace(/"/g, '""')`. -/
def doubleQuotesCh : List Char → List Char
  | [] => []
  | c :: r => if c == '"' then '"' :: '"' :: doubleQuotesCh r else c :: doubleQuotesCh r

/--
`escapeCsv` (`src/unnamed/part_001`, lines 124-134): prefix a leading quote
character when the value starts with a formula character, then wrap in double
quotes — doubling internal double quotes — when the value contains comma,
newline, carriage return or double-quote.
-/
def escapeCsv (s : String) : String :=
  let v := if startsWithFormulaChar s then aposStr ++ s else s
  if needsCsvQuoting v then "\"" ++ String.mk (doubleQuotesCh v.data) ++ "\"" else v

/-- Inverse of the quote doubling. -/
def undoubleCh : List Char → List Char
  | [] => []
  | [c] => [c]
  | c :: d :: r =>
    if c == '"' && d == '"' then '"' :: undoubleCh r else c :: undoubleCh (d :: r)

/--
CSV field decoding per RFC 4180: a field wrapped in double quotes denotes its
interior with doubled quotes collapsed; any other field denotes itself.
-/
def csvFieldDecode (s : String) : String :=
  match s.data with
  | '"' :: rest =>
    if rest.getLast? == some '"' then String.mk (undoubleCh rest.dropLast) else s
  | _ => s


/-- The CDATA terminator sequence as a string. -/
def cdTermStr : String := "]]>"

/-- The CDATA terminator sequence as characters. -/
def cdSep : List Char := cdTermStr.data

/-- The escaped terminator placed between adjacent CDATA sections (`']]&gt;'`). -/
def cdataJoiner : String := "]]&gt;"

/-- Wraps one part in a CDATA section (the JS template `<![CDATA[${part}]]>`). -/
def wrapCdata (p : List Char) : String :=
  "<![CDATA[" ++ String.mk p ++ "]]>"

/-- Fuel-driven splitting at every occurrence of `sep` (JS `String.split`). -/
def splitSeqF (sep : List Char) : Nat → List Char → List (List Char)
  | 0, s => [s]
  | fuel + 1, s =>
    match findSeq sep s with
    | none => [s]
    | some (a, b) => a :: splitSeqF sep fuel b

/-- JS `s.split(sep)`: the fuel `s.length + 1` always suffices for nonempty `sep`. -/
def splitSeq (sep : List Char) (s : List Char) : List (List Char) :=
  splitSeqF sep (s.length + 1) s

/-- Rejoins parts with the separator (inverse of `splitSeq`). -/
def joinSeq (sep : List Char) : List (List Char) → List Char
  | [] => []
  | [x] => x
  | x :: xs => x ++ sep ++ joinSeq sep xs

/-- JS `Array.join(sep)` on strings. -/
def joinWithStr (sep : String) : List String → String
  | [] => ""
  | [x] => x
  | x :: xs => x ++ sep ++ joinWithStr sep xs

/-- The newline separator of the XML line builder. -/
def nlStr : String := "\n"

/-- Each line prefixed with a newline, concatenated (the tail shape of `join('\n')`). -/
def prefixJoin : List String → String
  | [] => ""
  | l :: rest => nlStr ++ l ++ prefixJoin rest

/-- JS `text.replace(/c/g, rep)` for a single character. -/
def replaceAllCh (c : Char) (rep : List Char) : List Char → List Char
  | [] => []
  | a :: r => if a == c then rep ++ replaceAllCh c rep r else a :: replaceAllCh c rep r

/--
`escapeXml` (`src/unnamed/part_001`, lines 175-182): entity-escapes `&`, `<`,
`>`, `"`, `'` in that order.
-/
def escapeXml (s : String) : String :=
  String.mk (replaceAllCh aposChar ("&#39;").data
    (replaceAllCh '"' ("&quot;").data
      (replaceAllCh '>' ("&gt;").data
        (replaceAllCh '<' ("&lt;").data
          (replaceAllCh '&' ("&amp;").data s.data)))))

/--
`safeCdata` (`src/unnamed/part_001`, lines 184-191): wrap in one CDATA
section, except that text containing the terminator sequence is split at
every occurrence into adjacent CDATA sections joined by the escaped
terminator.
-/
def safeCdata (s : String) : String :=
  if includesStr s cdTermStr then
    joinWithStr cdataJoiner ((splitSeq cdSep s.data).map wrapCdata)
  else
    "<![CDATA[" ++ s ++ "]]>"

/--
The per-identity leaf lines of `formatAsXml` (`src/unnamed/part_001`, lines
208-235): mandatory id / personalName / context, the optional blocks —
emitted only when the field is truthy and nonempty, exactly as the source
tests `identity.pronouns` etc. — and the mandatory isPrimary / createdAt /
updatedAt.
-/
def identityInnerLines (i : Ident) : List String :=
  ["    <id>" ++ safeCdata i.id ++ "</id>",
   "    <personalName>" ++ safeCdata i.personalName ++ "</personalName>",
   "    <context>" ++ safeCdata i.context ++ "</context>"]
  ++ (if 0 < i.otherNames.length then
        ["    <otherNames>"]
        ++ i.otherNames.map (fun n => "      <name>" ++ safeCdata n ++ "</name>")
        ++ ["    </otherNames>"]
      else [])
  ++ (match i.pronouns with
      | some p => if p == "" then [] else ["    <pronouns>" ++ safeCdata p ++ "</pronouns>"]
      | none => [])
  ++ (match i.title with
      | some t => if t == "" then [] else ["    <title>" ++ safeCdata t ++ "</title>"]
      | none => [])
  ++ (match i.avatarUrl with
      | some a => if a == "" then [] else ["    <avatarUrl>" ++ safeCdata a ++ "</avatarUrl>"]
      | none => [])
  ++ (if 0 < i.socialLinks.length then
        ["    <socialLinks>"]
        ++ i.socialLinks.map (fun pl =>
             "      <link platform=\"" ++ escapeXml pl.1 ++ "\">" ++ safeCdata pl.2 ++ "</link>")
        ++ ["    </socialLinks>"]
      else [])
  ++ ["    <isPrimary>" ++ (if i.isPrimary then "true" else "false") ++ "</isPrimary>",
      "    <createdAt>" ++ safeCdata (toString i.createdAt) ++ "</createdAt>",
      "    <updatedAt>" ++ safeCdata (toString i.updatedAt) ++ "</updatedAt>"]

/-- One `<identity>` block of lines. -/
def identityLines (i : Ident) : List String :=
  ["  <identity>"] ++ identityInnerLines i ++ ["  </identity>"]

/-- The XML declaration line emitted first. -/
def xmlHeader : String := "<?xml version=\"1.0\" encoding=\"UTF-8\"?>"

/-- The XML declaration between `<` and the closing `?>`. -/
def xmlHeaderBody : List Char := ("?xml version=\"1.0\" encoding=\"UTF-8\"").data

/-- The error-branch fallback message (`data.message || 'No data available'`). -/
def noDataMsg : String := "No data available"

/-- The full line list of the list-shaped XML document. -/
def xmlDocLines (l : List Ident) : List String :=
  [xmlHeader, "<identities>"] ++ l.flatMap identityLines ++ ["</identities>"]

/--
The input envelope of `formatAsXml`: a list payload (`data.identities`), a
single identity (`data.id` present), or an error-shaped object carrying only
an optional `message`.
-/
inductive XmlInput where
  | idents (identities : List Ident)
  | single (i : Ident)
  | errResp (message : Option String)
deriving Repr

/--
`formatAsXml` (`src/unnamed/part_001`, lines 193-241): error-shaped input
degrades to the `<response><error><message>` document; otherwise the line
list for the identities (a single identity becomes a one-element list) is
built and joined with newlines.
-/
def formatAsXml (d : XmlInput) : String :=
  match d with
  | .errResp m =>
    xmlHeader ++ "<response><error><message>" ++ safeCdata (m.getD noDataMsg)
      ++ "</message></error></response>"
  | .idents l => joinWithStr nlStr (xmlDocLines l)
  | .single i => joinWithStr nlStr (xmlDocLines [i])

/-- The characters following `<` that open a CDATA section. -/
def cdataOpen : List Char := ("![CDATA[").data

/-- The processing-instruction terminator `?>`. -/
def piEnd : List Char := ("?>").data

/-- The processing-instruction marker after `<`. -/
def piMark : List Char := ("?").data

/-- The closing-tag marker after `<`. -/
def slashMark : List Char := ("/").data

/-- A double quote as a search sequence. -/
def quoteSep : List Char := ['"']

/-- Fuel-driven attribute scanner: consumes up to the tag-closing `>`, skipping quoted values. -/
def skipAttrsF : Nat → List Char → Option (List Char)
  | 0, _ => none
  | _ + 1, [] => none
  | fuel + 1, c :: rest =>
    if c == '>' then some rest
    else if c == '"' then
      match findSeq quoteSep rest with
      | some (_, after) => skipAttrsF fuel after
      | none => none
    else skipAttrsF fuel rest

/-- Attribute scanner with sufficient fuel. -/
def skipAttrs (l : List Char) : Option (List Char) :=
  skipAttrsF (l.length + 1) l

/--
Fuel-driven XML well-formedness scanner: walks the document maintaining the
stack of open tag names; CDATA sections are skipped to their first
terminator, processing instructions to `?>`, opening tags (with optional
attributes) push their name, closing tags must match the top of the stack.
Returns the final stack, or `none` on any structural violation.
-/
def scanF : Nat → List Char → List (List Char) → Option (List (List Char))
  | 0, _, _ => none
  | _ + 1, [], st => some st
  | fuel + 1, c :: rest, st =>
    if c == '<' then
      if hasLead cdataOpen rest then
        match findSeq cdSep (rest.drop cdataOpen.length) with
        | some (_, after) => scanF fuel after st
        | none => none
      else if hasLead piMark rest then
        match findSeq piEnd rest with
        | some (_, after) => scanF fuel after st
        | none => none
      else if hasLead slashMark rest then
        let dw := (rest.drop 1).dropWhile (fun x => !(x == '>'))
        if dw.isEmpty then none
        else
          match st with
          | top :: st2 =>
            if top == (rest.drop 1).takeWhile (fun x => !(x == '>')) then
              scanF fuel (dw.drop 1) st2
            else none
          | [] => none
      else
        let dw := rest.dropWhile (fun x => !(x == ' ' || x == '>'))
        let name := rest.takeWhile (fun x => !(x == ' ' || x == '>'))
        if dw.head? == some '>' then scanF fuel (dw.drop 1) (name :: st)
        else if dw.head? == some ' ' then
          match skipAttrs (dw.drop 1) with
          | some after => scanF fuel after (name :: st)
          | none => none
        else none
    else scanF fuel rest st

/-- The scanner with sufficient fuel. -/
def scanT (l : List Char) (st : List (List Char)) : Option (List (List Char)) :=
  scanF (l.length + 1) l st

/-- Document well-formedness: the scan consumes everything and ends with an empty stack. -/
def xmlWF (s : String) : Bool :=
  match scanT s.data [] with
  | some [] => true
  | _ => false

/-- A string chunk the scanner passes through without touching the tag stack. -/
def TransS (s : String) : Prop :=
  ∀ (r : List Char) (st : List (List Char)), scanT (s.data ++ r) st = scanT r st


theorem matchKey_eq_true {id uid : String} {i : Ident} :
    matchKey id uid i = true ↔ i.id = id ∧ i.userId = uid := by
  simp [matchKey]

theorem ownerPrimary_eq_true {uid : String} {i : Ident} :
    ownerPrimary uid i = true ↔ i.userId = uid ∧ i.isPrimary = true := by
  simp [ownerPrimary]

theorem insertSorted_length (a : Ident) (l : List Ident) :
    (insertSorted a l).length = l.length + 1 := by
  induction l with
  | nil => rfl
  | cons b rest ih =>
    simp only [insertSorted]
    split
    · simp
    · simp [ih]

theorem sortIdentities_length (l : List Ident) :
    (sortIdentities l).length = l.length := by
  induction l with
  | nil => rfl
  | cons a rest ih => simp [sortIdentities, insertSorted_length, ih]

theorem le_foldr_max (x : Nat) (l : List Nat) (h : x ∈ l) : x ≤ l.foldr max 0 := by
  induction l with
  | nil => cases h
  | cons a t ih =>
    rcases List.mem_cons.mp h with h1 | h1
    · subst h1; exact Nat.le_max_left _ _
    · exact le_trans (ih h1) (Nat.le_max_right _ _)

theorem freshId_fresh {db : List Ident} {i : Ident} (hi : i ∈ db) : i.id ≠ freshId db := by
  intro heq
  have hlen : i.id.length = (freshId db).length := by rw [heq]
  have h1 : (freshId db).length = (db.map (fun j => j.id.length)).foldr max 0 + 1 := by
    show (List.replicate _ 'x').length = _
    simp
  have h2 : i.id.length ≤ (db.map (fun j => j.id.length)).foldr max 0 :=
    le_foldr_max _ _ (List.mem_map_of_mem _ hi)
  omega

theorem unsetPrimary_map_id (uid : String) (now : Nat) (db : List Ident) :
    (unsetPrimary uid now db).map (fun i => i.id) = db.map (fun i => i.id) := by
  simp only [unsetPrimary, List.map_map]
  apply List.map_congr_left
  intro a _
  by_cases h : ownerPrimary uid a <;> simp [h]

theorem primariesOf_unset_self (uid : String) (now : Nat) (db : List Ident) :
    primariesOf uid (unsetPrimary uid now db) = [] := by
  induction db with
  | nil => rfl
  | cons a l ih =>
    simp only [unsetPrimary, primariesOf, List.map_cons, List.filter_cons] at ih ⊢
    by_cases h : ownerPrimary uid a
    · simp only [h, if_true]
      have : ownerPrimary uid { a with isPrimary := false, updatedAt := now } = false := by
        simp [ownerPrimary]
      simp [this, ih]
    · simp only [h, if_false]
      have : ownerPrimary uid a = false := by simpa using h
      simp [this, ih]

theorem primariesOf_unset_other {uid2 uid : String} (h : uid2 ≠ uid) (now : Nat)
    (db : List Ident) :
    primariesOf uid2 (unsetPrimary uid now db) = primariesOf uid2 db := by
  induction db with
  | nil => rfl
  | cons a l ih =>
    simp only [unsetPrimary, primariesOf, List.map_cons, List.filter_cons] at ih ⊢
    by_cases ho : ownerPrimary uid a
    · have ha : a.userId = uid := (ownerPrimary_eq_true.mp ho).1
      have h2 : ownerPrimary uid2 a = false := by
        simp only [ownerPrimary, ha]
        simp only [Bool.and_eq_false_iff, beq_eq_false_iff_ne, ne_eq]
        left
        intro hh
        exact h hh.symm
      have h3 : ownerPrimary uid2 { a with isPrimary := false, updatedAt := now } = false := by
        simp [ownerPrimary]
      simp [ho, h2, h3, ih]
    · simp only [ho, if_false]
      by_cases h2 : ownerPrimary uid2 a <;> simp [h2, ih]

theorem filter_matchKey_le_one {db : List Ident} (hN : IdsNodup db) (id uid : String) :
    (db.filter (matchKey id uid)).length ≤ 1 := by
  induction db with
  | nil => simp
  | cons a l ih =>
    unfold IdsNodup at hN
    simp only [List.map_cons, List.nodup_cons] at hN
    simp only [List.filter_cons]
    by_cases h : matchKey id uid a
    · have hfil : List.filter (matchKey id uid) l = [] := by
        apply List.filter_eq_nil_iff.mpr
        intro j hj hpj
        have hj1 : j.id = id := (matchKey_eq_true.mp hpj).1
        have ha1 : a.id = id := (matchKey_eq_true.mp h).1
        exact hN.1 (by rw [ha1, ← hj1]; exact List.mem_map_of_mem _ hj)
      simp [h, hfil]
    · simp only [h, if_false]
      exact ih hN.2

theorem primLen_map_le {uid2 : String} (f : Ident → Ident)
    (h : ∀ i, ownerPrimary uid2 (f i) = true → ownerPrimary uid2 i = true)
    (l : List Ident) :
    (primariesOf uid2 (l.map f)).length ≤ (primariesOf uid2 l).length := by
  induction l with
  | nil => simp [primariesOf]
  | cons a t ih =>
    simp only [primariesOf, List.map_cons, List.filter_cons] at ih ⊢
    by_cases h2 : ownerPrimary uid2 (f a)
    · have h3 := h a h2
      simp only [h2, h3, if_true, List.length_cons]
      omega
    · by_cases h3 : ownerPrimary uid2 a <;> simp [h2, h3] <;> omega

theorem primLen_map_cond {uid id : String} (g : Ident → Ident) (l : List Ident) :
    (primariesOf uid (l.map (fun i => if matchKey id uid i then g i else i))).length
      ≤ (l.filter (matchKey id uid)).length + (primariesOf uid l).length := by
  induction l with
  | nil => simp [primariesOf]
  | cons a t ih =>
    simp only [primariesOf, List.map_cons, List.filter_cons] at ih ⊢
    by_cases hm : matchKey id uid a
    · by_cases h2 : ownerPrimary uid (g a) <;>
        by_cases h3 : ownerPrimary uid a <;>
          simp [hm, h2, h3] <;> omega
    · by_cases h3 : ownerPrimary uid a <;>
        simp [hm, h3] <;> omega

theorem primariesOf_map_cond_other {uid2 uid id : String} (g : Ident → Ident)
    (hg : ∀ i, (g i).userId = i.userId) (h : uid2 ≠ uid) (l : List Ident) :
    primariesOf uid2 (l.map (fun i => if matchKey id uid i then g i else i))
      = primariesOf uid2 l := by
  induction l with
  | nil => rfl
  | cons a t ih =>
    simp only [primariesOf, List.map_cons, List.filter_cons] at ih ⊢
    by_cases hm : matchKey id uid a
    · have ha : a.userId = uid := (matchKey_eq_true.mp hm).2
      have h2 : ownerPrimary uid2 a = false := by
        simp only [ownerPrimary, ha, Bool.and_eq_false_iff, beq_eq_false_iff_ne, ne_eq]
        left
        intro hh
        exact h hh.symm
      have h3 : ownerPrimary uid2 (g a) = false := by
        simp only [ownerPrimary, hg, ha, Bool.and_eq_false_iff, beq_eq_false_iff_ne, ne_eq]
        left
        intro hh
        exact h hh.symm
      simp [hm, h2, h3, ih]
    · simp only [hm, if_false]
      by_cases h2 : ownerPrimary uid2 a <;> simp [h2, ih]

theorem map_cond_ids {id uid : String} (g : Ident → Ident)
    (hg : ∀ i, (g i).id = i.id) (l : List Ident) :
    (l.map (fun i => if matchKey id uid i then g i else i)).map (fun i => i.id)
      = l.map (fun i => i.id) := by
  simp only [List.map_map]
  apply List.map_congr_left
  intro a _
  by_cases hm : matchKey id uid a <;> simp [hm, hg]

theorem mem_of_len_le_one {l : List Ident} {a b : Ident}
    (h : l.length ≤ 1) (ha : a ∈ l) (hb : b ∈ l) : a = b := by
  match l with
  | [] => cases ha
  | [x] =>
    rw [List.mem_singleton.mp ha, List.mem_singleton.mp hb]
  | x :: y :: t => simp at h

theorem ids_unset (uid : String) (now : Nat) {db : List Ident} (hN : IdsNodup db) :
    IdsNodup (unsetPrimary uid now db) := by
  unfold IdsNodup
  rw [unsetPrimary_map_id]
  exact hN

theorem storeInv_createIdentity {db : List Ident} (h : StoreInv db)
    (uid : String) (ins : InsertIdent) (now : Nat) :
    StoreInv (createIdentity uid ins now db).2 := by
  obtain ⟨hN, hP⟩ := h
  constructor
  · unfold createIdentity IdsNodup
    simp only [List.map_append]
    have hids : ((if ins.isPrimary then unsetPrimary uid now db else db).map (fun i => i.id))
        = db.map (fun i => i.id) := by
      split
      · exact unsetPrimary_map_id uid now db
      · rfl
    rw [hids]
    apply List.Nodup.append hN (by simp)
    intro x hx hx2
    simp only [List.map_cons, List.map_nil, List.mem_singleton] at hx2
    obtain ⟨i, hi, hix⟩ := List.mem_map.mp hx
    exact freshId_fresh hi (by rw [← hix] at hx2; exact hx2)
  · intro uid2
    unfold createIdentity
    simp only [primariesOf, List.filter_append]
    by_cases hp : ins.isPrimary
    · simp only [hp, if_true]
      by_cases h2 : uid2 = uid
      · subst h2
        have := primariesOf_unset_self uid2 now db
        unfold primariesOf at this
        rw [this]
        simp only [List.nil_append, List.length_append]
        have : (List.filter (ownerPrimary uid2) [mkIdent uid2 (freshId db) now ins]).length ≤ 1 := by
          simp only [List.filter]
          split <;> simp
        simpa using this
      · have hoth := primariesOf_unset_other h2 now db
        unfold primariesOf at hoth
        rw [hoth]
        have hnew : ownerPrimary uid2 (mkIdent uid (freshId db) now ins) = false := by
          simp only [ownerPrimary, mkIdent, Bool.and_eq_false_iff, beq_eq_false_iff_ne, ne_eq]
          left
          intro hh
          exact h2 hh.symm
        simp only [List.filter_cons, hnew, Bool.false_eq_true, if_false, List.filter_nil,
          List.append_nil]
        exact hP uid2
    · simp only [hp, if_false]
      have hnew : ownerPrimary uid2 (mkIdent uid (freshId db) now ins) = false := by
        simp only [ownerPrimary, mkIdent, Bool.and_eq_false_iff]
        right
        simpa using hp
      simp only [List.filter_cons, hnew, Bool.false_eq_true, if_false, List.filter_nil,
        List.append_nil]
      exact hP uid2

theorem storeInv_updateIdentity {db : List Ident} (h : StoreInv db)
    (id uid : String) (u : UpdateIdent) (now : Nat) :
    StoreInv (updateIdentity id uid u now db).2 := by
  obtain ⟨hN, hP⟩ := h
  unfold updateIdentity
  cases hf : db.find? (matchKey id uid) with
  | none => exact ⟨hN, hP⟩
  | some w =>
    simp only
    set db1 := if u.isPrimary.getD false then unsetPrimary uid now db else db with hdb1
    have hids1 : db1.map (fun i => i.id) = db.map (fun i => i.id) := by
      rw [hdb1]
      split
      · exact unsetPrimary_map_id uid now db
      · rfl
    have hN1 : IdsNodup db1 := by unfold IdsNodup; rw [hids1]; exact hN
    constructor
    · unfold IdsNodup
      rw [map_cond_ids (applyUpdates u now) (fun i => rfl), hids1]
      exact hN
    · intro uid2
      by_cases h2 : uid2 = uid
      · subst h2
        have hb := @primLen_map_cond uid2 id (applyUpdates u now) db1
        have hm1 : (db1.filter (matchKey id uid2)).length ≤ 1 := filter_matchKey_le_one hN1 id uid2
        by_cases hup : u.isPrimary.getD false
        · have hz : primariesOf uid2 db1 = [] := by
            rw [hdb1]
            simp only [hup, if_true]
            exact primariesOf_unset_self uid2 now db
          rw [hz] at hb
          simp only [List.length_nil, Nat.add_zero] at hb
          omega
        · have hdb1' : db1 = db := by rw [hdb1]; simp [hup]
          have himp : ∀ i, ownerPrimary uid2
              ((fun i => if matchKey id uid2 i then applyUpdates u now i else i) i) = true →
              ownerPrimary uid2 i = true := by
            intro i hi
            by_cases hm : matchKey id uid2 i
            · simp only [hm, if_true] at hi
              have h3 := ownerPrimary_eq_true.mp hi
              apply ownerPrimary_eq_true.mpr
              refine ⟨h3.1, ?_⟩
              have : (applyUpdates u now i).isPrimary = u.isPrimary.getD i.isPrimary := rfl
              rw [this] at h3
              cases hu : u.isPrimary with
              | none => rw [hu] at h3; exact h3.2
              | some b =>
                rw [hu] at h3
                have hb2 : b = false := by
                  have := hup
                  rw [hu] at this
                  simpa using this
                rw [hb2] at h3
                exact absurd h3.2 (by simp)
            · simpa [hm] using hi
          have := primLen_map_le _ himp db1
          rw [hdb1'] at this ⊢
          exact le_trans this (hP uid2)
      · rw [primariesOf_map_cond_other (applyUpdates u now) (fun i => rfl) h2 db1]
        rw [hdb1]
        split
        · rw [primariesOf_unset_other h2 now db]
          exact hP uid2
        · exact hP uid2

theorem storeInv_setPrimaryIdentity {db : List Ident} (h : StoreInv db)
    (id uid : String) (now : Nat) :
    StoreInv (setPrimaryIdentity id uid now db).2 := by
  obtain ⟨hN, hP⟩ := h
  unfold setPrimaryIdentity
  cases hf : db.find? (matchKey id uid) with
  | none => exact ⟨hN, hP⟩
  | some w =>
    simp only
    have hids1 : (unsetPrimary uid now db).map (fun i => i.id) = db.map (fun i => i.id) :=
      unsetPrimary_map_id uid now db
    have hN1 : IdsNodup (unsetPrimary uid now db) := ids_unset uid now hN
    constructor
    · unfold IdsNodup
      rw [map_cond_ids (fun i => { i with isPrimary := true, updatedAt := now })
        (fun i => rfl), hids1]
      exact hN
    · intro uid2
      by_cases h2 : uid2 = uid
      · subst h2
        have hb := @primLen_map_cond uid2 id
          (fun i => { i with isPrimary := true, updatedAt := now }) (unsetPrimary uid2 now db)
        have hm1 : ((unsetPrimary uid2 now db).filter (matchKey id uid2)).length ≤ 1 :=
          filter_matchKey_le_one hN1 id uid2
        have hz : primariesOf uid2 (unsetPrimary uid2 now db) = [] :=
          primariesOf_unset_self uid2 now db
        rw [hz] at hb
        simp only [List.length_nil, Nat.add_zero] at hb
        omega
      · rw [primariesOf_map_cond_other (fun i => { i with isPrimary := true, updatedAt := now })
          (fun i => rfl) h2 (unsetPrimary uid now db)]
        rw [primariesOf_unset_other h2 now db]
        exact hP uid2

theorem storeInv_applyOp {db : List Ident} (h : StoreInv db) (uid : String) (op : StoreOp) :
    StoreInv (applyOp uid op db) := by
  cases op with
  | create ins now => exact storeInv_createIdentity h uid ins now
  | update id u now => exact storeInv_updateIdentity h id uid u now
  | setPrim id now => exact storeInv_setPrimaryIdentity h id uid now

theorem storeInv_runOps {db : List Ident} (h : StoreInv db) (uid : String)
    (ops : List StoreOp) : StoreInv (runOps uid ops db) := by
  induction ops generalizing db with
  | nil => exact h
  | cons op rest ih => exact ih (storeInv_applyOp h uid op)

/--
Claim C1: for every owner and every sequence of create, update and setPrimary
operations by that owner, at most one identity owned by that owner has
`isPrimary = true` after each operation completes (first conjunct: the store
invariant — unique ids and at most one primary per owner — is preserved by
every such operation sequence, hence holds after every prefix); moreover any
operation that sets `isPrimary = true` clears the flag on the owner's current
primary inside the same transaction: after a primary-creating insert the
owner's only primary is the new row (second conjunct), and after a successful
setPrimary every primary of the owner carries the target id (third conjunct).
-/
theorem c1_primary_uniqueness :
    (∀ (uid : String) (ops : List StoreOp) (db : List Ident),
        StoreInv db → StoreInv (runOps uid ops db))
    ∧ (∀ (uid : String) (ins : InsertIdent) (now : Nat) (db : List Ident),
        ins.isPrimary = true →
          primariesOf uid (createIdentity uid ins now db).2
            = [(createIdentity uid ins now db).1])
    ∧ (∀ (uid id : String) (now : Nat) (db : List Ident),
        (setPrimaryIdentity id uid now db).1.isSome = true →
          ∀ j ∈ primariesOf uid (setPrimaryIdentity id uid now db).2, j.id = id) := by
  refine ⟨fun uid ops db h => storeInv_runOps h uid ops, ?_, ?_⟩
  · intro uid ins now db hp
    unfold createIdentity primariesOf
    simp only [hp, if_true, List.filter_append]
    have hz := primariesOf_unset_self uid now db
    unfold primariesOf at hz
    rw [hz]
    have hnew : ownerPrimary uid (mkIdent uid (freshId db) now ins) = true := by
      simp [ownerPrimary, mkIdent, hp]
    simp [hnew]
  · intro uid id now db hs j hj
    unfold setPrimaryIdentity at hs hj
    cases hf : db.find? (matchKey id uid) with
    | none => rw [hf] at hs; simp at hs
    | some w =>
      rw [hf] at hj
      simp only at hj
      unfold primariesOf at hj
      have hj2 := List.mem_filter.mp hj
      obtain ⟨i, hi, hix⟩ := List.mem_map.mp hj2.1
      by_cases hm : matchKey id uid i
      · have : j.id = i.id := by rw [← hix]; simp [hm]
        rw [this]
        exact (matchKey_eq_true.mp hm).1
      · have hji : j = i := by rw [← hix]; simp [hm]
        have hzz := primariesOf_unset_self uid now db
        have : i ∉ primariesOf uid (unsetPrimary uid now db) := by rw [hzz]; simp
        exact absurd (List.mem_filter.mpr ⟨hi, by rw [← hji]; exact hj2.2⟩) this

/--
Claim C1 witness: the invariant holds after a concrete operation sequence
starting from the empty store, a primary-creating insert yields exactly the
new row as the owner's primary, and after a concrete setPrimary every primary
of the owner carries the target id.
-/
theorem c1_witness :
    StoreInv (runOps "u" [StoreOp.create insA 1, StoreOp.create insA 2] [])
    ∧ primariesOf "u" (createIdentity "u" insA 3 []).2 = [(createIdentity "u" insA 3 []).1]
    ∧ (primariesOf "u" (setPrimaryIdentity "a2" "u" 5 dbTwo).2).all (fun j => j.id == "a2")
        = true := by
  refine ⟨c1_primary_uniqueness.1 "u" _ [] ⟨by simp [IdsNodup], fun uid => by simp [primariesOf]⟩,
    c1_primary_uniqueness.2.1 "u" insA 3 [] rfl, ?_⟩
  have h := c1_primary_uniqueness.2.2 "u" "a2" 5 dbTwo (by decide)
  exact List.all_eq_true.mpr (fun j hj => by simpa using h j hj)

/--
Claim C2: for every owner who currently owns exactly one identity, the delete
route fails with the policy error ("Cannot delete your only identity") and the
database — hence the identity — is unchanged; for every owner with two or more
identities, deleting one of them succeeds (204) and leaves the owner's other
identities in place.
-/
theorem c2_last_identity_protection (db : List Ident) (uid id : String) :
    ((getIdentities uid none db).length = 1 →
        deleteIdentityRoute uid id db = (.err 400 cannotDeleteMsg, db))
    ∧ (∀ t ∈ db, t.id = id → t.userId = uid → 2 ≤ (getIdentities uid none db).length →
        deleteIdentityRoute uid id db
            = (.ok 204 (), db.filter (fun i => !(matchKey id uid i)))
          ∧ ∀ j ∈ db, matchKey id uid j = false → j ∈ (deleteIdentityRoute uid id db).2) := by
  constructor
  · intro h1
    unfold deleteIdentityRoute
    simp [h1]
  · intro t ht hid huid hlen
    have hne : ((getIdentities uid none db).length == 1) = false := by
      simp only [beq_eq_false_iff_ne, ne_eq]
      omega
    have hfind : ∃ w, db.find? (matchKey id uid) = some w := by
      have : (db.find? (matchKey id uid)).isSome = true :=
        List.find?_isSome.mpr ⟨t, ht, matchKey_eq_true.mpr ⟨hid, huid⟩⟩
      exact Option.isSome_iff_exists.mp this
    obtain ⟨w, hw⟩ := hfind
    have hroute : deleteIdentityRoute uid id db
        = (.ok 204 (), db.filter (fun i => !(matchKey id uid i))) := by
      unfold deleteIdentityRoute deleteIdentity
      rw [hne, hw]
      simp
    refine ⟨hroute, ?_⟩
    intro j hj hjm
    rw [hroute]
    simp only
    exact List.mem_filter.mpr ⟨hj, by simp [hjm]⟩

/--
Claim C2 witness: with two identities the delete succeeds and the sibling
survives; with one identity the delete is refused and the state is unchanged.
-/
theorem c2_witness :
    deleteIdentityRoute "u" "a" dbTwo = (.ok 204 (), dbTwo.filter (fun i => !(matchKey "a" "u" i)))
    ∧ identA2 ∈ (deleteIdentityRoute "u" "a" dbTwo).2
    ∧ deleteIdentityRoute "u" "a" dbOne = (.err 400 cannotDeleteMsg, dbOne) := by
  obtain ⟨h1, h2⟩ := (c2_last_identity_protection dbTwo "u" "a").2 identA (by decide)
    rfl rfl (by decide)
  exact ⟨h1, h2 identA2 (by decide) (by decide),
    (c2_last_identity_protection dbOne "u" "a").1 (by decide)⟩

/--
Claim C3 (amended): `get`, `update`, `delete` and `setPrimary` invoked with an
id owned by a different account produce exactly the same observable result
(status, body and resulting state) as with an id that does not exist at all;
this common result is the 404 not-found for `get`, `update` and `setPrimary`,
and also for `delete` whenever the owner's identity count is not exactly one
(when it is one, both invocations identically yield the 400 policy error, per
the counterexample).
-/
theorem c3_ownership_isolation (db : List Ident) (uid id1 id2 : String)
    (h1 : ∀ i ∈ db, i.id = id1 → i.userId ≠ uid)
    (h2 : ∀ i ∈ db, i.id ≠ id2)
    (u : UpdateIdent) (now : Nat) :
    (getIdentityRoute uid id1 db = getIdentityRoute uid id2 db
      ∧ updateIdentityRoute uid id1 u now db = updateIdentityRoute uid id2 u now db
      ∧ deleteIdentityRoute uid id1 db = deleteIdentityRoute uid id2 db
      ∧ setPrimaryIdentityRoute uid id1 now db = setPrimaryIdentityRoute uid id2 now db)
    ∧ (getIdentityRoute uid id1 db = .err 404 identityNotFoundMsg
      ∧ updateIdentityRoute uid id1 u now db = (.err 404 identityNotFoundMsg, db)
      ∧ setPrimaryIdentityRoute uid id1 now db = (.err 404 identityNotFoundMsg, db)
      ∧ ((getIdentities uid none db).length ≠ 1 →
          deleteIdentityRoute uid id1 db = (.err 404 identityNotFoundMsg, db))) := by
  have hn1 : db.find? (matchKey id1 uid) = none := by
    apply List.find?_eq_none.mpr
    intro i hi hp
    obtain ⟨hpa, hpb⟩ := matchKey_eq_true.mp hp
    exact h1 i hi hpa hpb
  have hn2 : db.find? (matchKey id2 uid) = none := by
    apply List.find?_eq_none.mpr
    intro i hi hp
    exact h2 i hi (matchKey_eq_true.mp hp).1
  have hget : getIdentityRoute uid id1 db = .err 404 identityNotFoundMsg := by
    unfold getIdentityRoute getIdentity
    rw [hn1]
  have hget2 : getIdentityRoute uid id2 db = .err 404 identityNotFoundMsg := by
    unfold getIdentityRoute getIdentity
    rw [hn2]
  have hupd : updateIdentityRoute uid id1 u now db = (.err 404 identityNotFoundMsg, db) := by
    unfold updateIdentityRoute updateIdentity
    rw [hn1]
  have hupd2 : updateIdentityRoute uid id2 u now db = (.err 404 identityNotFoundMsg, db) := by
    unfold updateIdentityRoute updateIdentity
    rw [hn2]
  have hsp : setPrimaryIdentityRoute uid id1 now db = (.err 404 identityNotFoundMsg, db) := by
    unfold setPrimaryIdentityRoute setPrimaryIdentity
    rw [hn1]
  have hsp2 : setPrimaryIdentityRoute uid id2 now db = (.err 404 identityNotFoundMsg, db) := by
    unfold setPrimaryIdentityRoute setPrimaryIdentity
    rw [hn2]
  have hdel : deleteIdentityRoute uid id1 db = deleteIdentityRoute uid id2 db := by
    unfold deleteIdentityRoute deleteIdentity
    rw [hn1, hn2]
  have hdel404 : (getIdentities uid none db).length ≠ 1 →
      deleteIdentityRoute uid id1 db = (.err 404 identityNotFoundMsg, db) := by
    intro hne
    unfold deleteIdentityRoute deleteIdentity
    rw [hn1]
    simp [hne]
  exact ⟨⟨hget.trans hget2.symm, hupd.trans hupd2.symm, hdel, hsp.trans hsp2.symm⟩,
    hget, hupd, hsp, hdel404⟩

/--
Claim C3 witness: against a database where `b` is owned by account `v`, the
four routes invoked by owner `u` with id `b` coincide with the routes invoked
with the nonexistent id `zzz`, and the common result is the 404 not-found.
-/
theorem c3_witness :
    (getIdentityRoute "u" "b" dbOther = getIdentityRoute "u" "zzz" dbOther
      ∧ deleteIdentityRoute "u" "b" dbOther = deleteIdentityRoute "u" "zzz" dbOther)
    ∧ getIdentityRoute "u" "b" dbOther = .err 404 identityNotFoundMsg
    ∧ deleteIdentityRoute "u" "b" dbOther = (.err 404 identityNotFoundMsg, dbOther) := by
  have h := c3_ownership_isolation dbOther "u" "b" "zzz" (by decide) (by decide) emptyUpdate 0
  exact ⟨⟨h.1.1, h.1.2.2.1⟩, h.2.1, h.2.2.2.2 (by decide)⟩

/--
Claim C3 counterexample: the claim asserts the common observable result is
always the not-found response.  With owner `u` holding exactly one identity,
DELETE with id `b` — an id owned by the different account `v` — returns the
400 policy error, not a 404, so the "not-found" part of the claim is false
(the indistinguishability itself still holds: the nonexistent id `zzz` gets
the same policy error).
-/
theorem c3_counterexample :
    identB ∈ dbOneCross ∧ identB.id = "b" ∧ identB.userId ≠ "u"
    ∧ (deleteIdentityRoute "u" "b" dbOneCross).1 = .err 400 cannotDeleteMsg
    ∧ (deleteIdentityRoute "u" "b" dbOneCross).1 ≠ .err 404 identityNotFoundMsg
    ∧ deleteIdentityRoute "u" "b" dbOneCross = deleteIdentityRoute "u" "zzz" dbOneCross := by
  decide

/--
Claim C9 (amended): for every owner who currently owns exactly one identity,
DELETE on any id returns the 400 policy error and never not-found; the 404
not-found outcome is only reachable when the owner's identity count is not
exactly one — that is, zero or two-or-more (the original claim said "two or
more", which the zero-identity counterexample refutes).
-/
theorem c9_delete_policy_precedence (db : List Ident) (uid id : String) :
    ((getIdentities uid none db).length = 1 →
        (deleteIdentityRoute uid id db).1 = .err 400 cannotDeleteMsg)
    ∧ ((deleteIdentityRoute uid id db).1 = .err 404 identityNotFoundMsg →
        (getIdentities uid none db).length ≠ 1) := by
  constructor
  · intro h1
    unfold deleteIdentityRoute
    simp [h1]
  · intro h4 h1
    unfold deleteIdentityRoute at h4
    simp [h1] at h4

/--
Claim C9 witness: with one identity the policy error fires even for a
nonexistent id, and a concrete 404 outcome implies the owner's count was not
one.
-/
theorem c9_witness :
    (deleteIdentityRoute "u" "nonexistent" dbOneCross).1 = .err 400 cannotDeleteMsg
    ∧ (getIdentities "u" none dbTwo).length ≠ 1 := by
  exact ⟨(c9_delete_policy_precedence dbOneCross "u" "nonexistent").1 (by decide),
    (c9_delete_policy_precedence dbTwo "u" "zzz").2 (by decide)⟩

/--
Claim C9 counterexample: an owner with zero identities also reaches the 404
not-found outcome — the database holds only an identity of owner `v`, owner
`u` owns zero identities (fewer than two), yet DELETE returns 404 — refuting
"the not-found outcome is only reachable when the owner has two or more
identities".
-/
theorem c9_counterexample :
    (getIdentities "u" none dbOther).length = 0
    ∧ (deleteIdentityRoute "u" "x" dbOther).1 = .err 404 identityNotFoundMsg := by
  decide

/--
Claim C10: invoking setPrimary on the identity that is already the owner's
current primary succeeds (returns a row, no error) and leaves the primary
flags of all of the owner's — and everyone else's — identities exactly as
they were: the target stays `isPrimary = true`, every other row keeps its
flag (hence, under the at-most-one-primary invariant, every other identity of
the owner stays `false`).
-/
theorem c10_setPrimary_idempotent (db : List Ident) (uid id : String) (now : Nat)
    (t : Ident) (hN : IdsNodup db) (ht : t ∈ db) (hid : t.id = id)
    (huid : t.userId = uid) (hp : t.isPrimary = true)
    (hinv : (primariesOf uid db).length ≤ 1) :
    (setPrimaryIdentity id uid now db).1.isSome = true
    ∧ (setPrimaryIdentity id uid now db).2.map (fun i => (i.id, i.isPrimary))
        = db.map (fun i => (i.id, i.isPrimary)) := by
  have hfind : ∃ w, db.find? (matchKey id uid) = some w :=
    Option.isSome_iff_exists.mp
      (List.find?_isSome.mpr ⟨t, ht, matchKey_eq_true.mpr ⟨hid, huid⟩⟩)
  obtain ⟨w, hw⟩ := hfind
  have hopt : ownerPrimary uid t = true := ownerPrimary_eq_true.mpr ⟨huid, hp⟩
  constructor
  · unfold setPrimaryIdentity
    rw [hw]
    simp only [unsetPrimary, List.map_map]
    apply List.find?_isSome.mpr
    refine ⟨_, List.mem_map_of_mem _ ht, ?_⟩
    simp only [Function.comp_apply, hopt, if_true]
    have hm1 : matchKey id uid { t with isPrimary := false, updatedAt := now } = true :=
      matchKey_eq_true.mpr ⟨hid, huid⟩
    simp only [hm1, if_true]
    exact matchKey_eq_true.mpr ⟨hid, huid⟩
  · unfold setPrimaryIdentity
    rw [hw]
    simp only [unsetPrimary, List.map_map]
    apply List.map_congr_left
    intro i hi
    simp only [Function.comp_apply]
    by_cases hop : ownerPrimary uid i
    · have hit : i = t :=
        mem_of_len_le_one hinv (List.mem_filter.mpr ⟨hi, hop⟩)
          (List.mem_filter.mpr ⟨ht, hopt⟩)
      subst hit
      simp only [hopt, if_true]
      have hm1 : matchKey id uid { i with isPrimary := false, updatedAt := now } = true :=
        matchKey_eq_true.mpr ⟨hid, huid⟩
      simp only [hm1, if_true]
      rw [hp]
    · simp only [hop, Bool.false_eq_true, if_false]
      by_cases hm : matchKey id uid i
      · have : i = t := List.inj_on_of_nodup_map hN hi ht
          (by rw [(matchKey_eq_true.mp hm).1, hid])
        subst this
        exact absurd hopt hop
      · simp [hm]

/--
Claim C10 witness: setting the already-primary identity `a` as primary in a
concrete two-identity database succeeds and leaves every primary flag as it
was.
-/
theorem c10_witness :
    (setPrimaryIdentity "a" "u" 5 dbTwo).1.isSome = true
    ∧ (setPrimaryIdentity "a" "u" 5 dbTwo).2.map (fun i => (i.id, i.isPrimary))
        = dbTwo.map (fun i => (i.id, i.isPrimary)) :=
  c10_setPrimary_idempotent dbTwo "u" "a" 5 identA (by unfold IdsNodup; decide)
    (by decide) rfl rfl rfl (by decide)

/--
Claim C4: the claim — backed by the spec and by the repository's own tests
(`schema.test` "should reject invalid context", `identities.test` "should
reject invalid context") — says a create or update with a `context` outside
{legal, work, social, gaming} must fail validation with a 400 and write
nothing.  The code does not do this: `insertIdentitySchema` types `context`
as a plain string, so the out-of-enumeration value "invalid-context" passes
validation, the create route answers 201, and the identity is written with
that context; the partial update schema likewise accepts it.  This theorem
evaluates the embedded code at that failing input.
-/
theorem c4_context_validation_gap :
    (insertIdentityParse rawBadInsert).isSome = true
    ∧ (insertIdentityParse rawBadInsert).map (fun i => i.context) = some ("invalid-context")
    ∧ statusOf (createIdentityRoute "u" rawBadInsert 1 []).1 = 201
    ∧ (createIdentityRoute "u" rawBadInsert 1 []).2.map (fun i => i.context)
        = ["invalid-context"]
    ∧ updateIdentityParse badContextUpdate = some badContextUpdate
    ∧ badContextUpdate.context = some ("invalid-context")
    ∧ contextEnum.contains "invalid-context" = false := by
  decide

/--
Claim C5: an identity with `isDiscoverable = false` never appears in the
public search results for any query (no result row carries its id), and
`getPublicIdentity` on its id answers not-found, indistinguishable from the
identity not existing.
-/
theorem c5_discoverability_gating (db : List DiscoverableIdent) (i : DiscoverableIdent)
    (hN : (db.map (fun j => j.id)).Nodup) (hi : i ∈ db) (hd : i.isDiscoverable = false)
    (ctx : Option String) (q : Option String) (lim : Option Nat) :
    (∀ res, searchPublicIdentities ctx q lim db = some res →
        ∀ r ∈ res.identities, r.id ≠ i.id)
    ∧ getPublicIdentity i.id db = none := by
  constructor
  · intro res hres r hr hrid
    unfold searchPublicIdentities at hres
    cases ctx with
    | none => simp at hres
    | some c =>
      simp only at hres
      split at hres
      · simp at hres
      · split at hres
        · simp at hres
        · have hres2 := Option.some.inj hres
          rw [← hres2] at hr
          simp only at hr
          obtain ⟨j, hj, hjr⟩ := List.mem_map.mp hr
          have hjm : j ∈ db.filter (searchEligible c q) := List.take_subset _ _ hj
          have hje := List.mem_filter.mp hjm
          have hdisc : j.isDiscoverable = true := by
            have := hje.2
            unfold searchEligible at this
            simp only [Bool.and_eq_true] at this
            exact this.1.1
          have hjid : j.id = i.id := by
            rw [← hrid, ← hjr]
            rfl
          have : j = i := List.inj_on_of_nodup_map hN hje.1 hi hjid
          rw [this] at hdisc
          rw [hdisc] at hd
          cases hd
  · unfold getPublicIdentity
    have hnone : db.find? (fun j => j.id == i.id && j.isDiscoverable) = none := by
      apply List.find?_eq_none.mpr
      intro j hj hp
      simp only [Bool.and_eq_true, beq_iff_eq] at hp
      have : j = i := List.inj_on_of_nodup_map hN hj hi hp.1
      rw [this] at hp
      rw [hp.2] at hd
      cases hd
    rw [hnone]
    rfl

/--
Claim C5 witness: in a concrete database holding one discoverable and one
non-discoverable work identity, no search result carries the hidden id and
`getPublicIdentity` on it answers not-found.
-/
theorem c5_witness :
    getPublicIdentity discHidden.id discDb = none
    ∧ (match searchPublicIdentities (some ("work")) none none discDb with
        | some res => res.identities.all (fun r => r.id != discHidden.id)
        | none => false) = true := by
  have h := c5_discoverability_gating discDb discHidden (by decide) (by decide) rfl
    (some ("work")) none none
  refine ⟨h.2, ?_⟩
  have hs : searchPublicIdentities (some ("work")) none none discDb
      = some { identities := [toPublicIdentity discWork], hasMore := false } := by decide
  rw [hs]
  simp only
  apply List.all_eq_true.mpr
  intro r hr
  have := h.1 _ hs r hr
  simpa using this

/--
Claim C6: the negotiated format is decided by substring tests in the fixed
priority order `application/vnd.api+json` (json-api), then `text/csv` (csv),
then `application/xml` (xml), with json otherwise; exactly one format results
even when several tokens are present (the first in priority order wins), and
an absent header yields json.
-/
theorem c6_content_negotiation (a : Option String) :
    (∀ s, a = some s →
      (includesStr s vndApiToken = true → negotiateContent a = .jsonApi)
      ∧ (includesStr s vndApiToken = false → includesStr s csvToken = true →
          negotiateContent a = .csv)
      ∧ (includesStr s vndApiToken = false → includesStr s csvToken = false →
          includesStr s xmlToken = true → negotiateContent a = .xml)
      ∧ (includesStr s vndApiToken = false → includesStr s csvToken = false →
          includesStr s xmlToken = false → negotiateContent a = .json))
    ∧ (a = none → negotiateContent a = .json) := by
  constructor
  · intro s hs
    subst hs
    refine ⟨fun h1 => ?_, fun h1 h2 => ?_, fun h1 h2 h3 => ?_, fun h1 h2 h3 => ?_⟩ <;>
      simp [negotiateContent, h1] <;> simp [h2] <;> simp [h3]
  · intro h
    subst h
    decide

/--
Claim C6 witness: with both csv and xml tokens present, csv wins regardless
of their order in the header, and the json-api token beats csv.
-/
theorem c6_witness :
    negotiateContent (some ("text/csv, application/xml")) = .csv
    ∧ negotiateContent (some ("application/xml, text/csv")) = .csv
    ∧ negotiateContent (some ("text/csv, application/vnd.api+json")) = .jsonApi
    ∧ negotiateContent none = .json := by
  refine ⟨?_, ?_, ?_, (c6_content_negotiation none).2 rfl⟩
  · exact ((c6_content_negotiation (some ("text/csv, application/xml"))).1 _ rfl).2.1
      (by decide) (by decide)
  · exact ((c6_content_negotiation (some ("application/xml, text/csv"))).1 _ rfl).2.1
      (by decide) (by decide)
  · exact ((c6_content_negotiation (some ("text/csv, application/vnd.api+json"))).1 _ rfl).1
      (by decide)

theorem doubleQuotesCh_nil_iff (l : List Char) : doubleQuotesCh l = [] ↔ l = [] := by
  cases l with
  | nil => simp [doubleQuotesCh]
  | cons c r =>
    simp only [doubleQuotesCh]
    constructor
    · intro h
      split at h <;> simp at h
    · intro h
      cases h

theorem undouble_double : ∀ l : List Char, undoubleCh (doubleQuotesCh l) = l
  | [] => rfl
  | c :: r => by
    by_cases h : c = '"'
    · subst h
      show undoubleCh ('"' :: '"' :: doubleQuotesCh r) = _
      cases hr : doubleQuotesCh r with
      | nil =>
        have : r = [] := (doubleQuotesCh_nil_iff r).mp hr
        rw [this]
        rfl
      | cons d t =>
        have hstep : undoubleCh ('"' :: '"' :: d :: t) = '"' :: undoubleCh (d :: t) := by
          rw [undoubleCh]
          simp
        rw [hstep, ← hr, undouble_double r]
    · have hc : (c == '"') = false := by simpa using h
      simp only [doubleQuotesCh, hc, Bool.false_eq_true, if_false]
      cases hr : doubleQuotesCh r with
      | nil =>
        have : r = [] := (doubleQuotesCh_nil_iff r).mp hr
        rw [this]
        rfl
      | cons d t =>
        simp only [undoubleCh, hc, Bool.false_and, Bool.false_eq_true, if_false]
        rw [← hr, undouble_double r]

theorem csv_decode_wrap (v : String) :
    csvFieldDecode ("\"" ++ String.mk (doubleQuotesCh v.data) ++ "\"") = v := by
  have hdata : ("\"" ++ String.mk (doubleQuotesCh v.data) ++ "\"").data
      = '"' :: (doubleQuotesCh v.data ++ ['"']) := by
    simp [String.data_append]
  unfold csvFieldDecode
  rw [hdata]
  simp only [List.getLast?_concat, List.dropLast_concat, beq_self_eq_true, if_pos]
  rw [undouble_double]

theorem csv_decode_plain (v : String) (h : containsCh v '"' = false) :
    csvFieldDecode v = v := by
  unfold csvFieldDecode
  split
  · next heq =>
    exfalso
    unfold containsCh at h
    rw [heq] at h
    simp at h
  · rfl

/--
Claim C7: `escapeCsv` — applied to every string field value serialized to CSV
— prefixes a leading quote character to any value beginning with `=`, `+`,
`-` or `@` (so the RFC 4180 decoding of the emitted field starts with the
quote character, never the formula character), and wraps any value containing
comma, newline, carriage return or double-quote in double quotes with every
internal double-quote doubled; the decoding always recovers exactly the
(possibly quote-prefixed) value.
-/
theorem c7_csv_escaping (s : String) :
    csvFieldDecode (escapeCsv s) = (if startsWithFormulaChar s then aposStr ++ s else s)
    ∧ (startsWithFormulaChar s = true →
        (csvFieldDecode (escapeCsv s)).data.head? = some aposChar)
    ∧ (needsCsvQuoting (if startsWithFormulaChar s then aposStr ++ s else s) = true →
        escapeCsv s = "\"" ++ String.mk (doubleQuotesCh
          (if startsWithFormulaChar s then aposStr ++ s else s).data) ++ "\"") := by
  set v := if startsWithFormulaChar s then aposStr ++ s else s with hv
  have hesc : escapeCsv s
      = if needsCsvQuoting v then "\"" ++ String.mk (doubleQuotesCh v.data) ++ "\"" else v := by
    rfl
  have hdec : csvFieldDecode (escapeCsv s) = v := by
    rw [hesc]
    by_cases hq : needsCsvQuoting v
    · rw [if_pos hq]
      exact csv_decode_wrap v
    · rw [if_neg hq]
      apply csv_decode_plain
      have : containsCh v '"' = false := by
        by_contra hcc
        apply hq
        unfold needsCsvQuoting
        simp only [Bool.or_eq_true]
        right
        simpa using hcc
      exact this
  refine ⟨hdec, fun hf => ?_, fun hq => ?_⟩
  · rw [hdec, hv]
    simp only [hf, if_true]
    simp [aposStr, String.data_append]
  · rw [hesc, if_pos hq]

/--
Claim C7 witness: the formula value `=cmd|calc` decodes to a value prefixed
with the leading quote character (so no spreadsheet interprets it as a
formula), and a value containing a comma and a double-quote is emitted
wrapped in doubled-quote form.
-/
theorem c7_witness :
    csvFieldDecode (escapeCsv ("=cmd|calc")) = aposStr ++ ("=cmd|calc")
    ∧ (csvFieldDecode (escapeCsv ("=cmd|calc"))).data.head? = some aposChar
    ∧ escapeCsv ("a,b\"c") = "\"" ++ String.mk (doubleQuotesCh (("a,b\"c")).data) ++ "\"" := by
  refine ⟨(c7_csv_escaping ("=cmd|calc")).1.trans (by decide),
    (c7_csv_escaping ("=cmd|calc")).2.1 rfl,
    ((c7_csv_escaping ("a,b\"c")).2.2 (by decide)).trans (by decide)⟩

theorem hasLead_iff (p : List Char) : ∀ s, hasLead p s = true ↔ ∃ t, s = p ++ t := by
  induction p with
  | nil =>
    intro s
    simp [hasLead]
  | cons a as ih =>
    intro s
    cases s with
    | nil =>
      simp only [hasLead]
      constructor
      · intro h
        simp at h
      · intro ⟨t, ht⟩
        cases ht
    | cons b bs =>
      simp only [hasLead, Bool.and_eq_true, beq_iff_eq, ih]
      constructor
      · intro ⟨hab, t, ht⟩
        exact ⟨t, by rw [hab, ht]; rfl⟩
      · intro ⟨t, ht⟩
        have h1 : b = a := (List.cons.inj ht).1
        have h2 : bs = as ++ t := (List.cons.inj ht).2
        exact ⟨h1.symm, t, h2⟩

theorem hasLead_append_self (p t : List Char) : hasLead p (p ++ t) = true :=
  (hasLead_iff p _).mpr ⟨t, rfl⟩

theorem hasLead_mono {p x : List Char} (h : hasLead p x = true) (y : List Char) :
    hasLead p (x ++ y) = true := by
  obtain ⟨t, ht⟩ := (hasLead_iff p x).mp h
  subst ht
  rw [List.append_assoc]
  exact hasLead_append_self p _

theorem hasLead_of_le : ∀ (p x : List Char), p.length ≤ x.length → ∀ y,
    hasLead p (x ++ y) = hasLead p x := by
  intro p
  induction p with
  | nil => intro x h y; rfl
  | cons a as ih =>
    intro x h y
    cases x with
    | nil => simp at h
    | cons b bs =>
      simp only [List.cons_append, hasLead, List.append_eq]
      rw [ih bs (by simpa using h) y]

theorem hasLead_cons_ne {a b : Char} (h : a ≠ b) (as bs : List Char) :
    hasLead (a :: as) (b :: bs) = false := by
  simp [hasLead, h]

theorem findSeq_eq {sep : List Char} : ∀ {s a b : List Char},
    findSeq sep s = some (a, b) → s = a ++ sep ++ b := by
  intro s
  induction s with
  | nil =>
    intro a b h
    simp only [findSeq] at h
    split at h
    · next hl =>
      obtain ⟨t, ht⟩ := (hasLead_iff sep []).mp hl
      have hsep : sep = [] := by
        cases sep with
        | nil => rfl
        | cons x xs => cases ht
      obtain ⟨ha, hb⟩ := Prod.mk.injEq .. ▸ Option.some.inj h
      rw [← ha, ← hb, hsep]
      rfl
    · cases h
  | cons c rest ih =>
    intro a b h
    simp only [findSeq] at h
    split at h
    · next hl =>
      obtain ⟨t, ht⟩ := (hasLead_iff sep _).mp hl
      obtain ⟨ha, hb⟩ := Prod.mk.injEq .. ▸ Option.some.inj h
      rw [← ha]
      simp only [List.nil_append]
      rw [← hb, ht, List.drop_left]
    · next hl =>
      cases hrec : findSeq sep rest with
      | none => rw [hrec] at h; cases h
      | some ab =>
        obtain ⟨a1, b1⟩ := ab
        rw [hrec] at h
        simp only at h
        obtain ⟨ha, hb⟩ := Prod.mk.injEq .. ▸ Option.some.inj h
        rw [← ha, ← hb]
        have := ih hrec
        simp [this]

theorem findSeq_len {sep : List Char} (hsep : sep ≠ []) {s a b : List Char}
    (h : findSeq sep s = some (a, b)) : b.length < s.length := by
  have := findSeq_eq h
  subst this
  have : 1 ≤ sep.length := by
    cases sep with
    | nil => exact absurd rfl hsep
    | cons x xs => simp
  simp only [List.length_append]
  omega

theorem findSeq_cons_none_iff {sep : List Char} {c : Char} {rest : List Char} :
    findSeq sep (c :: rest) = none
      ↔ hasLead sep (c :: rest) = false ∧ findSeq sep rest = none := by
  simp only [findSeq]
  constructor
  · intro h
    split at h
    · cases h
    · next hl =>
      refine ⟨by simpa using hl, ?_⟩
      cases hrec : findSeq sep rest with
      | none => rfl
      | some ab => rw [hrec] at h; obtain ⟨a1, b1⟩ := ab; simp at h
  · intro ⟨h1, h2⟩
    rw [if_neg (by simp [h1]), h2]

theorem findSeq_left_none {sep : List Char} (hsep : sep ≠ []) : ∀ {s a b : List Char},
    findSeq sep s = some (a, b) → findSeq sep a = none := by
  intro s
  induction s with
  | nil =>
    intro a b h
    simp only [findSeq] at h
    split at h
    · next hl =>
      obtain ⟨t, ht⟩ := (hasLead_iff sep []).mp hl
      cases sep with
      | nil => exact absurd rfl hsep
      | cons x xs => cases ht
    · cases h
  | cons c rest ih =>
    intro a b h
    simp only [findSeq] at h
    split at h
    · next hl =>
      obtain ⟨ha, _⟩ := Prod.mk.injEq .. ▸ Option.some.inj h
      rw [← ha]
      simp only [findSeq]
      rw [if_neg]
      intro hl2
      obtain ⟨t, ht⟩ := (hasLead_iff sep []).mp hl2
      cases sep with
      | nil => exact absurd rfl hsep
      | cons x xs => cases ht
    · next hl =>
      cases hrec : findSeq sep rest with
      | none => rw [hrec] at h; cases h
      | some ab =>
        obtain ⟨a1, b1⟩ := ab
        rw [hrec] at h
        simp only at h
        obtain ⟨ha, hb⟩ := Prod.mk.injEq .. ▸ Option.some.inj h
        rw [← ha]
        apply findSeq_cons_none_iff.mpr
        refine ⟨?_, ih hrec⟩
        have hd : rest = a1 ++ sep ++ b1 := findSeq_eq hrec
        by_contra hcon
        have hlt : hasLead sep (c :: a1) = true := by
          cases hx : hasLead sep (c :: a1) with
          | true => rfl
          | false => rw [hx] at hcon; exact absurd rfl hcon
        have : hasLead sep (c :: rest) = true := by
          rw [hd]
          have : c :: (a1 ++ sep ++ b1) = (c :: a1) ++ (sep ++ b1) := by simp
          rw [this]
          exact hasLead_mono hlt _
        rw [this] at hl
        simp at hl

theorem cdSep_cons : cdSep = ']' :: ']' :: '>' :: [] := rfl

theorem findSeq_cd_exact : ∀ {p : List Char}, findSeq cdSep p = none →
    ∀ b, findSeq cdSep (p ++ (cdSep ++ b)) = some (p, b) := by
  intro p
  induction p with
  | nil =>
    intro _ b
    have hshape : ([] : List Char) ++ (cdSep ++ b) = ']' :: (']' :: ('>' :: b)) := rfl
    rw [hshape]
    simp only [findSeq]
    rw [if_pos]
    · have : (']' :: (']' :: ('>' :: b))).drop cdSep.length = b := rfl
      rw [this]
    · show hasLead cdSep (']' :: (']' :: ('>' :: b))) = true
      rw [cdSep_cons]
      simp [hasLead]
  | cons c p' ih =>
    intro h b
    obtain ⟨hl, hrec⟩ := findSeq_cons_none_iff.mp h
    have hno : hasLead cdSep (c :: (p' ++ (cdSep ++ b))) = false := by
      match p' with
      | [] =>
        have : c :: (([] : List Char) ++ (cdSep ++ b)) = c :: ']' :: ']' :: '>' :: b := rfl
        rw [this, cdSep_cons]
        simp [hasLead]
      | [d] =>
        have : c :: ([d] ++ (cdSep ++ b)) = c :: d :: ']' :: ']' :: '>' :: b := rfl
        rw [this, cdSep_cons]
        simp [hasLead]
      | d :: e :: p'' =>
        have hsh : c :: ((d :: e :: p'') ++ (cdSep ++ b))
            = (c :: d :: e :: p'') ++ (cdSep ++ b) := rfl
        rw [hsh]
        rw [hasLead_of_le cdSep (c :: d :: e :: p'') (by rw [cdSep_cons]; simp) _]
        exact hl
    simp only [List.cons_append, findSeq, List.append_eq]
    rw [if_neg (by simp [hno]), ih hrec b]

theorem piEnd_cons : piEnd = '?' :: '>' :: [] := rfl

theorem findSeq_pi_exact : ∀ {p : List Char}, findSeq piEnd p = none →
    ∀ b, findSeq piEnd (p ++ (piEnd ++ b)) = some (p, b) := by
  intro p
  induction p with
  | nil =>
    intro _ b
    have hshape : ([] : List Char) ++ (piEnd ++ b) = '?' :: ('>' :: b) := rfl
    rw [hshape]
    simp only [findSeq]
    rw [if_pos]
    · have : ('?' :: ('>' :: b)).drop piEnd.length = b := rfl
      rw [this]
    · show hasLead piEnd ('?' :: ('>' :: b)) = true
      rw [piEnd_cons]
      simp [hasLead]
  | cons c p' ih =>
    intro h b
    obtain ⟨hl, hrec⟩ := findSeq_cons_none_iff.mp h
    have hno : hasLead piEnd (c :: (p' ++ (piEnd ++ b))) = false := by
      match p' with
      | [] =>
        have : c :: (([] : List Char) ++ (piEnd ++ b)) = c :: '?' :: '>' :: b := rfl
        rw [this, piEnd_cons]
        simp [hasLead]
      | d :: p'' =>
        have hsh : c :: ((d :: p'') ++ (piEnd ++ b)) = (c :: d :: p'') ++ (piEnd ++ b) := rfl
        rw [hsh]
        rw [hasLead_of_le piEnd (c :: d :: p'') (by rw [piEnd_cons]; simp) _]
        exact hl
    simp only [List.cons_append, findSeq, List.append_eq]
    rw [if_neg (by simp [hno]), ih hrec b]

theorem findSeq_quote_exact : ∀ {p : List Char}, (∀ x ∈ p, x ≠ '"') →
    ∀ b, findSeq quoteSep (p ++ ('"' :: b)) = some (p, b) := by
  intro p
  induction p with
  | nil =>
    intro _ b
    simp only [List.nil_append, findSeq]
    rw [if_pos]
    · rfl
    · simp [quoteSep, hasLead]
  | cons c p' ih =>
    intro h b
    have hc : c ≠ '"' := h c (by simp)
    have hno : hasLead quoteSep (c :: (p' ++ ('"' :: b))) = false := by
      simp only [quoteSep, hasLead, Bool.and_eq_true, Bool.and_true]
      simp [beq_eq_false_iff_ne]
      exact fun hh => hc hh.symm
    simp only [List.cons_append, findSeq, List.append_eq]
    rw [if_neg (by simp [hno]), ih (fun x hx => h x (by simp [hx])) b]

theorem splitSeqF_ne_nil (sep : List Char) (fuel : Nat) (s : List Char) :
    splitSeqF sep fuel s ≠ [] := by
  cases fuel with
  | zero => simp [splitSeqF]
  | succ f =>
    simp only [splitSeqF]
    cases findSeq sep s with
    | none => simp
    | some ab => obtain ⟨a, b⟩ := ab; simp

theorem joinSeq_cons (sep : List Char) (x : List Char) {xs : List (List Char)}
    (h : xs ≠ []) : joinSeq sep (x :: xs) = x ++ sep ++ joinSeq sep xs := by
  cases xs with
  | nil => exact absurd rfl h
  | cons y ys => rfl

theorem splitSeqF_rejoin : ∀ (fuel : Nat) (s : List Char), s.length < fuel →
    joinSeq cdSep (splitSeqF cdSep fuel s) = s := by
  intro fuel
  induction fuel with
  | zero => intro s h; exact absurd h (Nat.not_lt_zero _)
  | succ f ih =>
    intro s h
    simp only [splitSeqF]
    cases hfs : findSeq cdSep s with
    | none => rfl
    | some ab =>
      obtain ⟨a, b⟩ := ab
      rw [joinSeq_cons cdSep a (splitSeqF_ne_nil cdSep f b)]
      have hlen : b.length < f := by
        have := findSeq_len (by rw [cdSep_cons]; simp) hfs
        omega
      rw [ih b hlen]
      exact (findSeq_eq hfs).symm

theorem splitSeq_rejoin (s : List Char) : joinSeq cdSep (splitSeq cdSep s) = s :=
  splitSeqF_rejoin (s.length + 1) s (by omega)

theorem splitSeqF_parts : ∀ (fuel : Nat) (s : List Char), s.length < fuel →
    ∀ p ∈ splitSeqF cdSep fuel s, findSeq cdSep p = none := by
  intro fuel
  induction fuel with
  | zero => intro s h; exact absurd h (Nat.not_lt_zero _)
  | succ f ih =>
    intro s h p hp
    simp only [splitSeqF] at hp
    cases hfs : findSeq cdSep s with
    | none =>
      rw [hfs] at hp
      simp at hp
      rw [hp]
      exact hfs
    | some ab =>
      obtain ⟨a, b⟩ := ab
      rw [hfs] at hp
      simp only [List.mem_cons] at hp
      rcases hp with hp | hp
      · rw [hp]
        exact findSeq_left_none (by rw [cdSep_cons]; simp) hfs
      · have hlen : b.length < f := by
          have := findSeq_len (by rw [cdSep_cons]; simp) hfs
          omega
        exact ih b hlen p hp

theorem splitSeq_parts (s : List Char) :
    ∀ p ∈ splitSeq cdSep s, findSeq cdSep p = none :=
  splitSeqF_parts (s.length + 1) s (by omega)

theorem length_dropWhile_le (p : Char → Bool) (l : List Char) :
    (l.dropWhile p).length ≤ l.length := by
  induction l with
  | nil => simp
  | cons c r ih =>
    simp only [List.dropWhile]
    split
    · exact le_trans ih (by simp)
    · simp

theorem takeWhile_append_all (p : Char → Bool) {a : List Char} (h : ∀ x ∈ a, p x = true)
    (b : List Char) : (a ++ b).takeWhile p = a ++ b.takeWhile p := by
  induction a with
  | nil => simp
  | cons c r ih =>
    have hc : p c = true := h c (by simp)
    simp only [List.cons_append, List.takeWhile, hc, List.append_eq]
    rw [ih (fun x hx => h x (by simp [hx]))]

theorem dropWhile_append_all (p : Char → Bool) {a : List Char} (h : ∀ x ∈ a, p x = true)
    (b : List Char) : (a ++ b).dropWhile p = b.dropWhile p := by
  induction a with
  | nil => simp
  | cons c r ih =>
    have hc : p c = true := h c (by simp)
    simp only [List.cons_append, List.dropWhile, hc]
    exact ih (fun x hx => h x (by simp [hx]))

theorem skipAttrsF_len : ∀ (fuel : Nat) (l r : List Char),
    skipAttrsF fuel l = some r → r.length < l.length := by
  intro fuel
  induction fuel with
  | zero => intro l r h; cases h
  | succ f ih =>
    intro l r h
    cases l with
    | nil => cases h
    | cons c rest =>
      simp only [skipAttrsF] at h
      by_cases hgt : (c == '>') = true
      · rw [if_pos hgt] at h
        have : rest = r := Option.some.inj h
        subst this
        simp
      · rw [if_neg hgt] at h
        by_cases hq : (c == '"') = true
        · rw [if_pos hq] at h
          cases hfs : findSeq quoteSep rest with
          | none => rw [hfs] at h; cases h
          | some ab =>
            obtain ⟨a, af⟩ := ab
            rw [hfs] at h
            simp only at h
            have h1 := ih af r h
            have h2 := findSeq_len (by simp [quoteSep]) hfs
            simp only [List.length_cons]
            omega
        · rw [if_neg hq] at h
          have := ih rest r h
          simp only [List.length_cons]
          omega

theorem skipAttrsF_congr : ∀ (f1 f2 : Nat) (l : List Char),
    l.length < f1 → l.length < f2 → skipAttrsF f1 l = skipAttrsF f2 l := by
  intro f1
  induction f1 with
  | zero => intro f2 l h1 _; exact absurd h1 (Nat.not_lt_zero _)
  | succ f1' ih =>
    intro f2 l h1 h2
    cases f2 with
    | zero => exact absurd h2 (Nat.not_lt_zero _)
    | succ f2' =>
      cases l with
      | nil => rfl
      | cons c rest =>
        have hr1 : rest.length < f1' := by simp at h1; omega
        have hr2 : rest.length < f2' := by simp at h2; omega
        simp only [skipAttrsF]
        by_cases hgt : (c == '>') = true
        · rw [if_pos hgt, if_pos hgt]
        · rw [if_neg hgt, if_neg hgt]
          by_cases hq : (c == '"') = true
          · rw [if_pos hq, if_pos hq]
            cases hfs : findSeq quoteSep rest with
            | none => rfl
            | some ab =>
              obtain ⟨a, af⟩ := ab
              simp only
              have hlen := findSeq_len (by simp [quoteSep]) hfs
              exact ih f2' af (by omega) (by omega)
          · rw [if_neg hq, if_neg hq]
            exact ih f2' rest hr1 hr2

theorem skipAttrs_len {l r : List Char} (h : skipAttrs l = some r) : r.length < l.length :=
  skipAttrsF_len _ l r h

theorem skipAttrs_gtChar (r : List Char) : skipAttrs ('>' :: r) = some r := by
  simp [skipAttrs, skipAttrsF]

theorem skipAttrs_textSkip : ∀ {a : List Char}, (∀ x ∈ a, x ≠ '>' ∧ x ≠ '"') →
    ∀ l, skipAttrs (a ++ l) = skipAttrs l := by
  intro a
  induction a with
  | nil => intro _ l; rfl
  | cons c a' ih =>
    intro h l
    have hc := h c (by simp)
    have hgt : (c == '>') = false := by simp [hc.1]
    have hq : (c == '"') = false := by simp [hc.2]
    show skipAttrsF ((c :: (a' ++ l)).length + 1) (c :: (a' ++ l)) = _
    simp only [skipAttrsF, hgt, hq, Bool.false_eq_true, if_false]
    rw [skipAttrsF_congr ((c :: (a' ++ l)).length) ((a' ++ l).length + 1) (a' ++ l)
      (by simp) (by omega)]
    exact ih (fun x hx => h x (by simp [hx])) l

theorem skipAttrs_quoted {v : List Char} (hq : ∀ x ∈ v, x ≠ '"') (r : List Char) :
    skipAttrs ('"' :: (v ++ ('"' :: r))) = skipAttrs r := by
  show skipAttrsF (('"' :: (v ++ ('"' :: r))).length + 1) ('"' :: (v ++ ('"' :: r))) = _
  simp only [skipAttrsF]
  rw [if_neg (by simp), if_pos (by simp)]
  rw [findSeq_quote_exact hq r]
  simp only
  apply skipAttrsF_congr
  · simp only [List.length_cons, List.length_append]
    omega
  · omega

theorem scanF_congr : ∀ (f1 f2 : Nat) (s : List Char) (st : List (List Char)),
    s.length < f1 → s.length < f2 → scanF f1 s st = scanF f2 s st := by
  intro f1
  induction f1 with
  | zero => intro f2 s st h1 _; exact absurd h1 (Nat.not_lt_zero _)
  | succ f1' ih =>
    intro f2 s st h1 h2
    cases f2 with
    | zero => exact absurd h2 (Nat.not_lt_zero _)
    | succ f2' =>
      cases s with
      | nil => rfl
      | cons c rest =>
        have hr1 : rest.length < f1' := by simp at h1; omega
        have hr2 : rest.length < f2' := by simp at h2; omega
        simp only [scanF]
        by_cases hc : (c == '<') = true
        · rw [if_pos hc, if_pos hc]
          by_cases hcd : hasLead cdataOpen rest = true
          · rw [if_pos hcd, if_pos hcd]
            cases hfs : findSeq cdSep (rest.drop cdataOpen.length) with
            | none => rfl
            | some ab =>
              obtain ⟨a, af⟩ := ab
              simp only
              have hlen := findSeq_len (by rw [cdSep_cons]; simp) hfs
              have hdl : (rest.drop cdataOpen.length).length ≤ rest.length := by
                simp [List.length_drop]
              exact ih f2' af st (by omega) (by omega)
          · rw [if_neg hcd, if_neg hcd]
            by_cases hpi : hasLead piMark rest = true
            · rw [if_pos hpi, if_pos hpi]
              cases hfs : findSeq piEnd rest with
              | none => rfl
              | some ab =>
                obtain ⟨a, af⟩ := ab
                simp only
                have hlen := findSeq_len (by rw [piEnd_cons]; simp) hfs
                exact ih f2' af st (by omega) (by omega)
            · rw [if_neg hpi, if_neg hpi]
              by_cases hsl : hasLead slashMark rest = true
              · rw [if_pos hsl, if_pos hsl]
                by_cases he : ((rest.drop 1).dropWhile (fun x => !(x == '>'))).isEmpty = true
                · rw [if_pos he, if_pos he]
                · rw [if_neg he, if_neg he]
                  cases st with
                  | nil => rfl
                  | cons top st2 =>
                    simp only
                    by_cases ht :
                        (top == (rest.drop 1).takeWhile (fun x => !(x == '>'))) = true
                    · rw [if_pos ht, if_pos ht]
                      have b1 : ((rest.drop 1).dropWhile (fun x => !(x == '>'))).length
                          ≤ (rest.drop 1).length := length_dropWhile_le _ _
                      have b2 : (rest.drop 1).length ≤ rest.length := by
                        simp [List.length_drop]
                      have b3 : (((rest.drop 1).dropWhile (fun x => !(x == '>'))).drop 1).length
                          ≤ ((rest.drop 1).dropWhile (fun x => !(x == '>'))).length := by
                        simp [List.length_drop]
                      exact ih f2' _ st2 (by omega) (by omega)
                    · rw [if_neg ht, if_neg ht]
              · rw [if_neg hsl, if_neg hsl]
                by_cases hgt :
                    ((rest.dropWhile (fun x => !(x == ' ' || x == '>'))).head?
                      == some '>') = true
                · rw [if_pos hgt, if_pos hgt]
                  have b1 : (rest.dropWhile (fun x => !(x == ' ' || x == '>'))).length
                      ≤ rest.length := length_dropWhile_le _ _
                  have b3 : (((rest.dropWhile (fun x => !(x == ' ' || x == '>')))).drop 1).length
                      ≤ ((rest.dropWhile (fun x => !(x == ' ' || x == '>')))).length := by
                    simp [List.length_drop]
                  exact ih f2' _ _ (by omega) (by omega)
                · rw [if_neg hgt, if_neg hgt]
                  by_cases hsp :
                      ((rest.dropWhile (fun x => !(x == ' ' || x == '>'))).head?
                        == some ' ') = true
                  · rw [if_pos hsp, if_pos hsp]
                    cases hsk : skipAttrs
                        ((rest.dropWhile (fun x => !(x == ' ' || x == '>'))).drop 1) with
                    | none => rfl
                    | some after =>
                      simp only
                      have hb := skipAttrs_len hsk
                      have b1 : (rest.dropWhile (fun x => !(x == ' ' || x == '>'))).length
                          ≤ rest.length := length_dropWhile_le _ _
                      have b3 :
                          (((rest.dropWhile (fun x => !(x == ' ' || x == '>')))).drop 1).length
                          ≤ ((rest.dropWhile (fun x => !(x == ' ' || x == '>')))).length := by
                        simp [List.length_drop]
                      exact ih f2' after _ (by omega) (by omega)
                  · rw [if_neg hsp, if_neg hsp]
        · rw [if_neg hc, if_neg hc]
          exact ih f2' rest st hr1 hr2

theorem scanF_to_scanT {fuel : Nat} {l : List Char} (h : l.length < fuel)
    (st : List (List Char)) : scanF fuel l st = scanT l st :=
  scanF_congr fuel (l.length + 1) l st h (by omega)

theorem cdataOpen_cons : cdataOpen = '!' :: ("[CDATA[").data := rfl

theorem piMark_cons : piMark = ['?'] := rfl

theorem slashMark_cons : slashMark = ['/'] := rfl

theorem scanT_nil (st : List (List Char)) : scanT [] st = some st := rfl

theorem scanT_text_cons {c : Char} (h : (c == '<') = false) (r : List Char)
    (st : List (List Char)) : scanT (c :: r) st = scanT r st := by
  show scanF ((c :: r).length + 1) (c :: r) st = _
  simp only [List.length_cons, scanF]
  rw [if_neg (by simp [h])]
  rfl

theorem scanT_textRun : ∀ {a : List Char}, (∀ c ∈ a, (c == '<') = false) →
    ∀ (r : List Char) (st : List (List Char)), scanT (a ++ r) st = scanT r st := by
  intro a
  induction a with
  | nil => intro _ r st; rfl
  | cons c a' ih =>
    intro h r st
    have hc := h c (by simp)
    rw [List.cons_append, scanT_text_cons hc]
    exact ih (fun x hx => h x (by simp [hx])) r st

theorem scanT_cdata {p : List Char} (hp : findSeq cdSep p = none) (r : List Char)
    (st : List (List Char)) :
    scanT ('<' :: (cdataOpen ++ (p ++ (cdSep ++ r)))) st = scanT r st := by
  show scanF _ _ st = _
  simp only [scanF]
  rw [if_pos (by simp)]
  rw [if_pos (hasLead_append_self cdataOpen _)]
  rw [List.drop_left]
  rw [findSeq_cd_exact hp r]
  simp only
  apply scanF_to_scanT
  simp only [List.length_cons, List.length_append]
  omega

theorem scanT_pi {t : List Char} (hp : findSeq piEnd ('?' :: t) = none) (r : List Char)
    (st : List (List Char)) :
    scanT ('<' :: (('?' :: t) ++ (piEnd ++ r))) st = scanT r st := by
  show scanF _ _ st = _
  simp only [scanF]
  rw [if_pos (by simp)]
  rw [if_neg (by rw [cdataOpen_cons]; simp [List.cons_append, hasLead])]
  rw [if_pos (by rw [piMark_cons]; simp [List.cons_append, hasLead])]
  rw [findSeq_pi_exact hp r]
  simp only
  apply scanF_to_scanT
  simp only [List.length_cons, List.length_append]
  omega

theorem scanT_openTag {name : List Char} {c0 : Char} {nt : List Char}
    (hshape : name = c0 :: nt)
    (h1 : ('!' == c0) = false) (h2 : ('?' == c0) = false) (h3 : ('/' == c0) = false)
    (hchars : ∀ x ∈ name, (!(x == ' ' || x == '>')) = true)
    (r : List Char) (st : List (List Char)) :
    scanT ('<' :: (name ++ ('>' :: r))) st = scanT r (name :: st) := by
  show scanF _ _ st = _
  simp only [scanF]
  rw [if_pos (by simp)]
  rw [if_neg (by rw [cdataOpen_cons, hshape]; simp [List.cons_append, hasLead, h1])]
  rw [if_neg (by rw [piMark_cons, hshape]; simp [List.cons_append, hasLead, h2])]
  rw [if_neg (by rw [slashMark_cons, hshape]; simp [List.cons_append, hasLead, h3])]
  rw [dropWhile_append_all _ hchars ('>' :: r)]
  rw [takeWhile_append_all _ hchars ('>' :: r)]
  have hdw : ('>' :: r).dropWhile (fun x => !(x == ' ' || x == '>')) = '>' :: r := by
    simp [List.dropWhile]
  have htw : ('>' :: r).takeWhile (fun x => !(x == ' ' || x == '>')) = [] := by
    simp [List.takeWhile]
  rw [hdw, htw]
  rw [if_pos (by simp)]
  simp only [List.drop_one, List.tail_cons, List.append_nil]
  apply scanF_to_scanT
  simp only [List.length_cons, List.length_append]
  omega

theorem scanT_openTagAttrs {name : List Char} {c0 : Char} {nt : List Char}
    (hshape : name = c0 :: nt)
    (h1 : ('!' == c0) = false) (h2 : ('?' == c0) = false) (h3 : ('/' == c0) = false)
    (hchars : ∀ x ∈ name, (!(x == ' ' || x == '>')) = true)
    {attrs r2 : List Char} (hsk : skipAttrs attrs = some r2)
    (st : List (List Char)) :
    scanT ('<' :: (name ++ (' ' :: attrs))) st = scanT r2 (name :: st) := by
  show scanF _ _ st = _
  simp only [scanF]
  rw [if_pos (by simp)]
  rw [if_neg (by rw [cdataOpen_cons, hshape]; simp [List.cons_append, hasLead, h1])]
  rw [if_neg (by rw [piMark_cons, hshape]; simp [List.cons_append, hasLead, h2])]
  rw [if_neg (by rw [slashMark_cons, hshape]; simp [List.cons_append, hasLead, h3])]
  rw [dropWhile_append_all _ hchars (' ' :: attrs)]
  rw [takeWhile_append_all _ hchars (' ' :: attrs)]
  have hdw : (' ' :: attrs).dropWhile (fun x => !(x == ' ' || x == '>')) = ' ' :: attrs := by
    simp [List.dropWhile]
  have htw : (' ' :: attrs).takeWhile (fun x => !(x == ' ' || x == '>')) = [] := by
    simp [List.takeWhile]
  rw [hdw, htw]
  rw [if_neg (by simp)]
  rw [if_pos (by simp)]
  simp only [List.drop_one, List.tail_cons, List.append_nil]
  rw [hsk]
  simp only
  apply scanF_to_scanT
  have := skipAttrs_len hsk
  simp only [List.length_cons, List.length_append]
  omega

theorem scanT_closeTag {name : List Char}
    (hchars : ∀ x ∈ name, (!(x == '>')) = true)
    (r : List Char) (st : List (List Char)) :
    scanT ('<' :: ('/' :: (name ++ ('>' :: r)))) (name :: st) = scanT r st := by
  show scanF _ _ _ = _
  simp only [scanF]
  rw [if_pos (by simp)]
  rw [if_neg (by rw [cdataOpen_cons]; simp [List.cons_append, hasLead])]
  rw [if_neg (by rw [piMark_cons]; simp [List.cons_append, hasLead])]
  rw [if_pos (by rw [slashMark_cons]; simp [List.cons_append, hasLead])]
  simp only [List.drop_one, List.tail_cons]
  rw [dropWhile_append_all _ hchars ('>' :: r)]
  rw [takeWhile_append_all _ hchars ('>' :: r)]
  have hdw : ('>' :: r).dropWhile (fun x => !(x == '>')) = '>' :: r := by
    simp [List.dropWhile]
  have htw : ('>' :: r).takeWhile (fun x => !(x == '>')) = [] := by
    simp [List.takeWhile]
  rw [hdw, htw]
  rw [if_neg (by simp [List.isEmpty])]
  simp only [List.append_nil]
  rw [if_pos (by simp)]
  simp only [List.drop_one, List.tail_cons]
  apply scanF_to_scanT
  simp only [List.length_cons, List.length_append]
  omega

theorem transS_append {a b : String} (ha : TransS a) (hb : TransS b) : TransS (a ++ b) := by
  intro r st
  rw [String.data_append, List.append_assoc, ha, hb]

theorem transS_empty : TransS "" := by
  intro r st
  rfl

theorem transS_text {s : String} (h : ∀ c ∈ s.data, (c == '<') = false) : TransS s :=
  fun r st => scanT_textRun h r st

theorem transS_cdataChunk {p : List Char} (hp : findSeq cdSep p = none) :
    TransS (wrapCdata p) := by
  intro r st
  have key : (wrapCdata p).data ++ r = '<' :: (cdataOpen ++ (p ++ (cdSep ++ r))) := by
    show ("<![CDATA[" ++ String.mk p ++ "]]>").data ++ r = _
    rw [String.data_append, String.data_append]
    have h1 : ("<![CDATA[").data = '<' :: cdataOpen := rfl
    have h2 : ("]]>").data = cdSep := rfl
    have h3 : (String.mk p).data = p := rfl
    rw [h1, h2, h3]
    simp [List.append_assoc]
  rw [key, scanT_cdata hp r st]

theorem transS_cdataRaw {s : String} (hp : findSeq cdSep s.data = none) :
    TransS ("<![CDATA[" ++ s ++ "]]>") := by
  intro r st
  have key : ("<![CDATA[" ++ s ++ "]]>").data ++ r
      = '<' :: (cdataOpen ++ (s.data ++ (cdSep ++ r))) := by
    rw [String.data_append, String.data_append]
    have h1 : ("<![CDATA[").data = '<' :: cdataOpen := rfl
    have h2 : ("]]>").data = cdSep := rfl
    rw [h1, h2]
    simp [List.append_assoc]
  rw [key, scanT_cdata hp r st]

theorem transS_joinCdata : ∀ (parts : List (List Char)),
    (∀ p ∈ parts, findSeq cdSep p = none) →
    TransS (joinWithStr cdataJoiner (parts.map wrapCdata)) := by
  intro parts
  induction parts with
  | nil => intro _; exact transS_empty
  | cons p ps ih =>
    intro h
    cases ps with
    | nil =>
      show TransS (wrapCdata p)
      exact transS_cdataChunk (h p (by simp))
    | cons q qs =>
      show TransS (wrapCdata p ++ cdataJoiner ++ joinWithStr cdataJoiner ((q :: qs).map wrapCdata))
      apply transS_append
      · apply transS_append
        · exact transS_cdataChunk (h p (by simp))
        · exact transS_text (by decide)
      · exact ih (fun x hx => h x (by simp [hx]))

theorem transS_safeCdata (s : String) : TransS (safeCdata s) := by
  unfold safeCdata
  by_cases h : includesStr s cdTermStr = true
  · rw [if_pos h]
    exact transS_joinCdata _ (splitSeq_parts s.data)
  · rw [if_neg h]
    have hnone : findSeq cdSep s.data = none := by
      unfold includesStr at h
      have : cdTermStr.data = cdSep := rfl
      rw [this] at h
      cases hx : findSeq cdSep s.data with
      | none => rfl
      | some ab => rw [hx] at h; simp at h
    exact transS_cdataRaw hnone

theorem mem_replaceAllCh {x c : Char} {rep : List Char} : ∀ {l : List Char},
    x ∈ replaceAllCh c rep l → x ∈ rep ∨ (x ∈ l ∧ x ≠ c) := by
  intro l
  induction l with
  | nil => intro hx; simp [replaceAllCh] at hx
  | cons a r ih =>
    intro hx
    simp only [replaceAllCh] at hx
    by_cases ha : (a == c) = true
    · rw [if_pos ha] at hx
      rcases List.mem_append.mp hx with h1 | h1
      · exact Or.inl h1
      · rcases ih h1 with h2 | ⟨h3, h4⟩
        · exact Or.inl h2
        · exact Or.inr ⟨by simp [h3], h4⟩
    · rw [if_neg ha] at hx
      rcases List.mem_cons.mp hx with h1 | h1
      · subst h1
        exact Or.inr ⟨by simp, by simpa using ha⟩
      · rcases ih h1 with h2 | ⟨h3, h4⟩
        · exact Or.inl h2
        · exact Or.inr ⟨by simp [h3], h4⟩

theorem escapeXml_no_quote (p : String) : ∀ x ∈ (escapeXml p).data, x ≠ '"' := by
  intro x hx
  have hx2 : x ∈ replaceAllCh aposChar ("&#39;").data
      (replaceAllCh '"' ("&quot;").data
        (replaceAllCh '>' ("&gt;").data
          (replaceAllCh '<' ("&lt;").data
            (replaceAllCh '&' ("&amp;").data p.data)))) := hx
  rcases mem_replaceAllCh hx2 with h | ⟨h2, _⟩
  · have : ∀ y ∈ ("&#39;").data, y ≠ '"' := by decide
    exact this x h
  · rcases mem_replaceAllCh h2 with h3 | ⟨_, h5⟩
    · have : ∀ y ∈ ("&quot;").data, y ≠ '"' := by decide
      exact this x h3
    · exact h5

theorem transS_elementStr (openLit mid closeLit : String)
    (pre name pre2 : List Char) (c0 : Char) (nt : List Char)
    (hod : openLit.data = pre ++ ('<' :: (name ++ ['>'])))
    (hcd : closeLit.data = pre2 ++ ('<' :: ('/' :: (name ++ ['>']))))
    (hpre : ∀ c ∈ pre, (c == '<') = false)
    (hpre2 : ∀ c ∈ pre2, (c == '<') = false)
    (hshape : name = c0 :: nt)
    (h1 : ('!' == c0) = false) (h2 : ('?' == c0) = false) (h3 : ('/' == c0) = false)
    (hchars : ∀ x ∈ name, (!(x == ' ' || x == '>')) = true)
    (hmid : TransS mid) :
    TransS (openLit ++ mid ++ closeLit) := by
  intro r st
  have key : (openLit ++ mid ++ closeLit).data ++ r
      = pre ++ ('<' :: (name ++ ('>' :: (mid.data
          ++ (pre2 ++ ('<' :: ('/' :: (name ++ ('>' :: r))))))))) := by
    rw [String.data_append, String.data_append, hod, hcd]
    simp [List.append_assoc]
  rw [key]
  rw [scanT_textRun hpre]
  rw [scanT_openTag hshape h1 h2 h3 hchars]
  rw [hmid]
  rw [scanT_textRun hpre2]
  rw [scanT_closeTag (fun x hx => by
    have := hchars x hx
    simp only [Bool.not_eq_eq_eq_not, Bool.not_true, Bool.or_eq_false_iff] at this
    simp [this.2])]

theorem transS_linkLine (p v : String) :
    TransS ("      <link platform=\"" ++ escapeXml p ++ "\">" ++ safeCdata v ++ "</link>") := by
  intro r st
  have l1 : ("      <link platform=\"").data
      = "      ".data ++ ('<' :: (("link").data ++ (' ' :: (("platform=").data ++ ['"'])))) := rfl
  have l2 : ("\">").data = '"' :: ['>'] := rfl
  have l3 : ("</link>").data = '<' :: ('/' :: (("link").data ++ ['>'])) := rfl
  have key : ("      <link platform=\"" ++ escapeXml p ++ "\">" ++ safeCdata v
        ++ "</link>").data ++ r
      = "      ".data ++ ('<' :: (("link").data ++ (' ' :: (("platform=").data
          ++ ('"' :: ((escapeXml p).data ++ ('"' :: ('>' :: ((safeCdata v).data
          ++ ('<' :: ('/' :: (("link").data ++ ('>' :: r))))))))))))) := by
    rw [String.data_append, String.data_append, String.data_append, String.data_append]
    rw [l1, l2, l3]
    simp [List.append_assoc]
  rw [key]
  rw [scanT_textRun (by decide)]
  have hsk : skipAttrs (("platform=").data ++ ('"' :: ((escapeXml p).data
      ++ ('"' :: ('>' :: ((safeCdata v).data
          ++ ('<' :: ('/' :: (("link").data ++ ('>' :: r))))))))))
      = some ((safeCdata v).data ++ ('<' :: ('/' :: (("link").data ++ ('>' :: r))))) := by
    rw [skipAttrs_textSkip (by decide)]
    rw [skipAttrs_quoted (escapeXml_no_quote p)]
    exact skipAttrs_gtChar _
  have hstep := scanT_openTagAttrs (show ("link").data = 'l' :: ("ink").data from rfl)
    (by decide) (by decide) (by decide) (by decide) hsk st
  rw [hstep]
  rw [transS_safeCdata v]
  exact scanT_closeTag (by decide) r st

theorem prefixJoin_append (a b : List String) :
    prefixJoin (a ++ b) = prefixJoin a ++ prefixJoin b := by
  induction a with
  | nil =>
    show prefixJoin b = "" ++ prefixJoin b
    apply String.ext
    rw [String.data_append]
    rfl
  | cons l rest ih =>
    show nlStr ++ l ++ prefixJoin (rest ++ b) = nlStr ++ l ++ prefixJoin rest ++ prefixJoin b
    rw [ih, String.append_assoc, String.append_assoc, String.append_assoc]

theorem joinWithStr_nl : ∀ (x : String) (xs : List String),
    joinWithStr nlStr (x :: xs) = x ++ prefixJoin xs := by
  intro x xs
  induction xs generalizing x with
  | nil =>
    show x = x ++ ""
    rw [String.append_empty]
  | cons y ys ih =>
    show x ++ nlStr ++ joinWithStr nlStr (y :: ys) = x ++ (nlStr ++ y ++ prefixJoin ys)
    rw [ih y]
    rw [String.append_assoc, String.append_assoc]

theorem transS_pj_nil : TransS (prefixJoin []) := transS_empty

theorem transS_pj_cons {l : String} {rest : List String} (hl : TransS l)
    (hrest : TransS (prefixJoin rest)) : TransS (prefixJoin (l :: rest)) := by
  show TransS (nlStr ++ l ++ prefixJoin rest)
  exact transS_append (transS_append (transS_text (by decide)) hl) hrest

theorem transS_idLine (v : String) : TransS ("    <id>" ++ safeCdata v ++ "</id>") :=
  transS_elementStr _ _ _ ("    ").data (("id").data) [] 'i' (("d").data)
    rfl rfl (by decide) (by decide) rfl rfl rfl rfl (by decide) (transS_safeCdata v)

theorem transS_pnLine (v : String) :
    TransS ("    <personalName>" ++ safeCdata v ++ "</personalName>") :=
  transS_elementStr _ _ _ ("    ").data (("personalName").data) [] 'p' (("ersonalName").data)
    rfl rfl (by decide) (by decide) rfl rfl rfl rfl (by decide) (transS_safeCdata v)

theorem transS_ctxLine (v : String) : TransS ("    <context>" ++ safeCdata v ++ "</context>") :=
  transS_elementStr _ _ _ ("    ").data (("context").data) [] 'c' (("ontext").data)
    rfl rfl (by decide) (by decide) rfl rfl rfl rfl (by decide) (transS_safeCdata v)

theorem transS_nameLine (v : String) : TransS ("      <name>" ++ safeCdata v ++ "</name>") :=
  transS_elementStr _ _ _ ("      ").data (("name").data) [] 'n' (("ame").data)
    rfl rfl (by decide) (by decide) rfl rfl rfl rfl (by decide) (transS_safeCdata v)

theorem transS_pronounsLine (v : String) :
    TransS ("    <pronouns>" ++ safeCdata v ++ "</pronouns>") :=
  transS_elementStr _ _ _ ("    ").data (("pronouns").data) [] 'p' (("ronouns").data)
    rfl rfl (by decide) (by decide) rfl rfl rfl rfl (by decide) (transS_safeCdata v)

theorem transS_titleLine (v : String) : TransS ("    <title>" ++ safeCdata v ++ "</title>") :=
  transS_elementStr _ _ _ ("    ").data (("title").data) [] 't' (("itle").data)
    rfl rfl (by decide) (by decide) rfl rfl rfl rfl (by decide) (transS_safeCdata v)

theorem transS_avatarLine (v : String) :
    TransS ("    <avatarUrl>" ++ safeCdata v ++ "</avatarUrl>") :=
  transS_elementStr _ _ _ ("    ").data (("avatarUrl").data) [] 'a' (("vatarUrl").data)
    rfl rfl (by decide) (by decide) rfl rfl rfl rfl (by decide) (transS_safeCdata v)

theorem transS_isPrimaryLine (b : Bool) :
    TransS ("    <isPrimary>" ++ (if b then "true" else "false") ++ "</isPrimary>") :=
  transS_elementStr _ _ _ ("    ").data (("isPrimary").data) [] 'i' (("sPrimary").data)
    rfl rfl (by decide) (by decide) rfl rfl rfl rfl (by decide)
    (by cases b <;> exact transS_text (by decide))

theorem transS_createdLine (v : String) :
    TransS ("    <createdAt>" ++ safeCdata v ++ "</createdAt>") :=
  transS_elementStr _ _ _ ("    ").data (("createdAt").data) [] 'c' (("reatedAt").data)
    rfl rfl (by decide) (by decide) rfl rfl rfl rfl (by decide) (transS_safeCdata v)

theorem transS_updatedLine (v : String) :
    TransS ("    <updatedAt>" ++ safeCdata v ++ "</updatedAt>") :=
  transS_elementStr _ _ _ ("    ").data (("updatedAt").data) [] 'u' (("pdatedAt").data)
    rfl rfl (by decide) (by decide) rfl rfl rfl rfl (by decide) (transS_safeCdata v)

theorem transS_pj_nameLines (names : List String) :
    TransS (prefixJoin (names.map (fun n => "      <name>" ++ safeCdata n ++ "</name>"))) := by
  induction names with
  | nil => exact transS_pj_nil
  | cons n rest ih => exact transS_pj_cons (transS_nameLine n) ih

theorem transS_pj_linkLines (links : List (String × String)) :
    TransS (prefixJoin (links.map (fun pl =>
      "      <link platform=\"" ++ escapeXml pl.1 ++ "\">" ++ safeCdata pl.2 ++ "</link>"))) := by
  induction links with
  | nil => exact transS_pj_nil
  | cons pl rest ih => exact transS_pj_cons (transS_linkLine pl.1 pl.2) ih

theorem transS_otherNamesBlock (names : List String) :
    TransS (prefixJoin (["    <otherNames>"]
      ++ names.map (fun n => "      <name>" ++ safeCdata n ++ "</name>")
      ++ ["    </otherNames>"])) := by
  rw [prefixJoin_append, prefixJoin_append]
  exact transS_elementStr _ _ _ ("\n    ").data (("otherNames").data) ("\n    ").data
    'o' (("therNames").data) rfl rfl (by decide) (by decide) rfl rfl rfl rfl (by decide)
    (transS_pj_nameLines names)

theorem transS_socialLinksBlock (links : List (String × String)) :
    TransS (prefixJoin (["    <socialLinks>"]
      ++ links.map (fun pl =>
           "      <link platform=\"" ++ escapeXml pl.1 ++ "\">" ++ safeCdata pl.2 ++ "</link>")
      ++ ["    </socialLinks>"])) := by
  rw [prefixJoin_append, prefixJoin_append]
  exact transS_elementStr _ _ _ ("\n    ").data (("socialLinks").data) ("\n    ").data
    's' (("ocialLinks").data) rfl rfl (by decide) (by decide) rfl rfl rfl rfl (by decide)
    (transS_pj_linkLines links)

theorem transS_inner (i : Ident) : TransS (prefixJoin (identityInnerLines i)) := by
  unfold identityInnerLines
  simp only [prefixJoin_append]
  refine transS_append (transS_append (transS_append (transS_append (transS_append
    (transS_append ?hA ?h1) ?h2) ?h3) ?h4) ?h5) ?hB
  case hA =>
    exact transS_pj_cons (transS_idLine i.id)
      (transS_pj_cons (transS_pnLine i.personalName)
        (transS_pj_cons (transS_ctxLine i.context) transS_pj_nil))
  case h1 =>
    by_cases h : 0 < i.otherNames.length
    · rw [if_pos h]
      exact transS_otherNamesBlock i.otherNames
    · rw [if_neg h]
      exact transS_pj_nil
  case h2 =>
    cases hp : i.pronouns with
    | none => exact transS_pj_nil
    | some p =>
      show TransS (prefixJoin (if (p == "") = true then []
        else ["    <pronouns>" ++ safeCdata p ++ "</pronouns>"]))
      by_cases hq : (p == "") = true
      · rw [if_pos hq]
        exact transS_pj_nil
      · rw [if_neg hq]
        exact transS_pj_cons (transS_pronounsLine p) transS_pj_nil
  case h3 =>
    cases ht : i.title with
    | none => exact transS_pj_nil
    | some t =>
      show TransS (prefixJoin (if (t == "") = true then []
        else ["    <title>" ++ safeCdata t ++ "</title>"]))
      by_cases hq : (t == "") = true
      · rw [if_pos hq]
        exact transS_pj_nil
      · rw [if_neg hq]
        exact transS_pj_cons (transS_titleLine t) transS_pj_nil
  case h4 =>
    cases ha : i.avatarUrl with
    | none => exact transS_pj_nil
    | some a =>
      show TransS (prefixJoin (if (a == "") = true then []
        else ["    <avatarUrl>" ++ safeCdata a ++ "</avatarUrl>"]))
      by_cases hq : (a == "") = true
      · rw [if_pos hq]
        exact transS_pj_nil
      · rw [if_neg hq]
        exact transS_pj_cons (transS_avatarLine a) transS_pj_nil
  case h5 =>
    by_cases h : 0 < i.socialLinks.length
    · rw [if_pos h]
      exact transS_socialLinksBlock i.socialLinks
    · rw [if_neg h]
      exact transS_pj_nil
  case hB =>
    exact transS_pj_cons (transS_isPrimaryLine i.isPrimary)
      (transS_pj_cons (transS_createdLine (toString i.createdAt))
        (transS_pj_cons (transS_updatedLine (toString i.updatedAt)) transS_pj_nil))

theorem transS_identityBlock (i : Ident) : TransS (prefixJoin (identityLines i)) := by
  unfold identityLines
  simp only [prefixJoin_append]
  exact transS_elementStr _ _ _ ("\n  ").data (("identity").data) ("\n  ").data
    'i' (("dentity").data) rfl rfl (by decide) (by decide) rfl rfl rfl rfl (by decide)
    (transS_inner i)

theorem transS_pj_flat (l : List Ident) : TransS (prefixJoin (l.flatMap identityLines)) := by
  induction l with
  | nil => exact transS_pj_nil
  | cons i rest ih =>
    rw [List.flatMap_cons, prefixJoin_append]
    exact transS_append (transS_identityBlock i) ih

theorem xmlWF_of_scan {s : String} (h : scanT s.data [] = some []) : xmlWF s = true := by
  unfold xmlWF
  rw [h]

theorem xmlHeader_pi_none :
    findSeq piEnd ('?' :: ("xml version=\"1.0\" encoding=\"UTF-8\"").data) = none := by
  decide

theorem xmlWF_docLines (l : List Ident) :
    xmlWF (joinWithStr nlStr (xmlDocLines l)) = true := by
  have hdoc : joinWithStr nlStr (xmlDocLines l)
      = xmlHeader ++ (prefixJoin ["<identities>"]
          ++ (prefixJoin (l.flatMap identityLines) ++ prefixJoin ["</identities>"])) := by
    unfold xmlDocLines
    have hshape : ([xmlHeader, "<identities>"] ++ l.flatMap identityLines ++ ["</identities>"])
        = xmlHeader :: (["<identities>"] ++ (l.flatMap identityLines ++ ["</identities>"])) := by
      simp
    rw [hshape, joinWithStr_nl]
    rw [prefixJoin_append, prefixJoin_append]
  apply xmlWF_of_scan
  rw [hdoc]
  rw [String.data_append, String.data_append, String.data_append]
  have k1 : xmlHeader.data ++ ((prefixJoin ["<identities>"]).data
        ++ ((prefixJoin (l.flatMap identityLines)).data ++ (prefixJoin ["</identities>"]).data))
      = '<' :: (('?' :: ("xml version=\"1.0\" encoding=\"UTF-8\"").data)
          ++ (piEnd ++ ((prefixJoin ["<identities>"]).data
            ++ ((prefixJoin (l.flatMap identityLines)).data
              ++ (prefixJoin ["</identities>"]).data)))) := rfl
  rw [k1, scanT_pi xmlHeader_pi_none]
  have k2 : (prefixJoin ["<identities>"]).data
        ++ ((prefixJoin (l.flatMap identityLines)).data ++ (prefixJoin ["</identities>"]).data)
      = '\n' :: ('<' :: (("identities").data
          ++ ('>' :: ((prefixJoin (l.flatMap identityLines)).data
            ++ (prefixJoin ["</identities>"]).data)))) := rfl
  rw [k2]
  rw [scanT_text_cons (by decide)]
  rw [scanT_openTag (show ("identities").data = 'i' :: ("dentities").data from rfl)
    (by decide) (by decide) (by decide) (by decide)]
  rw [transS_pj_flat l]
  have k3 : (prefixJoin ["</identities>"]).data
      = '\n' :: ('<' :: ('/' :: (("identities").data ++ ('>' :: [])))) := rfl
  rw [k3]
  rw [scanT_text_cons (by decide)]
  rw [scanT_closeTag (by decide)]
  rfl

theorem xmlWF_errDoc (m : Option String) : xmlWF (formatAsXml (.errResp m)) = true := by
  apply xmlWF_of_scan
  show scanT (xmlHeader.data ++ (("<response><error><message>").data
      ++ ((safeCdata (m.getD noDataMsg)).data ++ ("</message></error></response>").data))) []
    = some []
  have k1 : xmlHeader.data ++ (("<response><error><message>").data
        ++ ((safeCdata (m.getD noDataMsg)).data ++ ("</message></error></response>").data))
      = '<' :: (('?' :: ("xml version=\"1.0\" encoding=\"UTF-8\"").data)
          ++ (piEnd ++ (("<response><error><message>").data
            ++ ((safeCdata (m.getD noDataMsg)).data
              ++ ("</message></error></response>").data)))) := rfl
  rw [k1, scanT_pi xmlHeader_pi_none]
  have k2 : ("<response><error><message>").data
        ++ ((safeCdata (m.getD noDataMsg)).data ++ ("</message></error></response>").data)
      = '<' :: (("response").data
          ++ ('>' :: (("<error><message>").data
            ++ ((safeCdata (m.getD noDataMsg)).data
              ++ ("</message></error></response>").data)))) := rfl
  rw [k2]
  rw [scanT_openTag (show ("response").data = 'r' :: ("esponse").data from rfl)
    (by decide) (by decide) (by decide) (by decide)]
  have k3 : ("<error><message>").data
        ++ ((safeCdata (m.getD noDataMsg)).data ++ ("</message></error></response>").data)
      = '<' :: (("error").data
          ++ ('>' :: (("<message>").data
            ++ ((safeCdata (m.getD noDataMsg)).data
              ++ ("</message></error></response>").data)))) := rfl
  rw [k3]
  rw [scanT_openTag (show ("error").data = 'e' :: ("rror").data from rfl)
    (by decide) (by decide) (by decide) (by decide)]
  have k4 : ("<message>").data
        ++ ((safeCdata (m.getD noDataMsg)).data ++ ("</message></error></response>").data)
      = '<' :: (("message").data
          ++ ('>' :: ((safeCdata (m.getD noDataMsg)).data
            ++ ("</message></error></response>").data))) := rfl
  rw [k4]
  rw [scanT_openTag (show ("message").data = 'm' :: ("essage").data from rfl)
    (by decide) (by decide) (by decide) (by decide)]
  rw [transS_safeCdata (m.getD noDataMsg)]
  have k5 : ("</message></error></response>").data
      = '<' :: ('/' :: (("message").data ++ ('>' :: ("</error></response>").data))) := rfl
  rw [k5, scanT_closeTag (by decide)]
  have k6 : ("</error></response>").data
      = '<' :: ('/' :: (("error").data ++ ('>' :: ("</response>").data))) := rfl
  rw [k6, scanT_closeTag (by decide)]
  have k7 : ("</response>").data
      = '<' :: ('/' :: (("response").data ++ ('>' :: []))) := rfl
  rw [k7, scanT_closeTag (by decide)]
  rfl

/--
Claim C8: for every input (an identity list, a single identity, or the
error response) the XML document produced by `formatAsXml` is well-formed:
the stack scanner matches every opened tag with its closing tag and treats
CDATA sections as opaque, even when a field value contains the terminator
sequence. Furthermore the split performed by `safeCdata` is safe: rejoining
the pieces around the terminator recovers the original text, and no piece
contains the CDATA terminator sequence, so no text can prematurely close a
CDATA section.
-/
theorem c8_xml_cdata_safety :
    (∀ env : XmlInput, xmlWF (formatAsXml env) = true)
    ∧ (∀ s : String, joinSeq cdSep (splitSeq cdSep s.data) = s.data)
    ∧ (∀ s : String,
        (splitSeq cdSep s.data).all (fun p => (findSeq cdSep p).isNone) = true) := by
  refine ⟨?_, ?_, ?_⟩
  · intro env
    cases env with
    | idents l => exact xmlWF_docLines l
    | single i => exact xmlWF_docLines [i]
    | errResp m => exact xmlWF_errDoc m
  · intro s
    exact splitSeq_rejoin s.data
  · intro s
    apply List.all_eq_true.mpr
    intro p hp
    simp [splitSeq_parts s.data p hp]
